import Mathlib

/-!
Verification development for the `goffkv-zk` ZooKeeper backend (`zk.go`).

The Go client adapts a flat, versioned key-value interface onto a
hierarchical ZooKeeper tree.  We embed the client shallowly:

* `ZkState` is an association list from node paths (segment lists) to nodes;
  `applyOp`/`applyMulti` give the underlying service's single-request and
  all-or-nothing batch (`conn.Multi`) semantics.
* Listings made during recursive erase expansion are modelled by a
  `Listing` oracle (a function from path to response), so that temporal
  races — a node listed by its parent but gone when itself listed — are
  representable.
* Each Go method (`Create`, `Set`, `Cas`, `Erase`, `Exists`, `Get`,
  `Children`, `Commit`) becomes a Lean function; where the Go code makes
  several service calls in sequence, the Lean function takes one modelled
  service snapshot per call (e.g. `zkSet` takes two states), and the retry
  loops of `Erase`/`Commit` consume a list of per-attempt snapshots.
* Go's `int32(...)` truncations of user versions are modelled explicitly by
  `toInt32`/`wrapInt32` over `Nat`/`Int`.
-/

deriving instance DecidableEq for Except

/-- Errors of the underlying ZooKeeper client library (`zkapi`).
`fuelOut` is a model artifact signalling exhaustion of the structural
recursion fuel of `makeEraseQuery`; it corresponds to no Go error and all
theorems supply enough fuel for it never to arise. -/
inductive ZkErr where
  | nodeExists
  | noNode
  | badVersion
  | notEmpty
  | noChildrenForEphemerals
  | runtimeInconsistency
  | fuelOut
  | other (n : Nat)
deriving DecidableEq, Repr

/-- Errors of the goffkv interface, plus pass-through of untranslated
backend errors (`zk e`), as produced by `convertError` in `zk.go`. -/
inductive GoErr where
  | entryExists
  | noEntry
  | ephem
  | malformedKey
  | txnError (idx : Nat)
  | zk (e : ZkErr)
deriving DecidableEq, Repr

/-- Embeds `convertError` (zk.go lines 60-71). -/
def convertError : ZkErr → GoErr
  | ZkErr.nodeExists => GoErr.entryExists
  | ZkErr.noNode => GoErr.noEntry
  | ZkErr.noChildrenForEphemerals => GoErr.ephem
  | e => GoErr.zk e

/-- A node of the underlying tree: opaque data, native version counter
(0 on creation), ephemeral flag. -/
structure ZNode where
  data : List Nat
  version : Nat
  ephemeral : Bool
deriving DecidableEq, Repr

/-- The tree state: association list from full paths (segment lists) to nodes. -/
abbrev ZkState := List (List String × ZNode)

/-- Look a path up in the state. -/
def lookupNode (s : ZkState) (p : List String) : Option ZNode :=
  (s.find? (fun e => e.1 = p)).map (fun e => e.2)

/-- Add a fresh node at a path. -/
def addNode (s : ZkState) (p : List String) (n : ZNode) : ZkState :=
  s ++ [(p, n)]

/-- Replace the node stored at a path. -/
def setNode (s : ZkState) (p : List String) (n : ZNode) : ZkState :=
  s.map (fun e => if e.1 = p then (p, n) else e)

/-- Remove the node stored at a path. -/
def removeNode (s : ZkState) (p : List String) : ZkState :=
  s.filter (fun e => ¬ (e.1 = p))

/-- Does some node of `s` have `p` as its parent path? -/
def hasChild (s : ZkState) (p : List String) : Bool :=
  s.any (fun e => e.1.length = p.length + 1 && e.1.dropLast = p)

/-- Names of the immediate children of `p` in `s`, in state order. -/
def childNames (s : ZkState) (p : List String) : List String :=
  s.filterMap (fun e =>
    if e.1.length = p.length + 1 ∧ e.1.dropLast = p then e.1.getLast? else none)

/-- Truncation of an unsigned 64-bit user version to Go's `int32`
(two's complement), as in `int32(ver)`. -/
def toInt32 (n : Nat) : Int :=
  if n % 2 ^ 32 < 2 ^ 31 then ((n % 2 ^ 32 : Nat) : Int)
  else ((n % 2 ^ 32 : Nat) : Int) - 2 ^ 32

/-- Wrap an integer into `int32` range (two's complement), modelling Go
`int32` arithmetic overflow. -/
def wrapInt32 (z : Int) : Int :=
  if z % 2 ^ 32 < 2 ^ 31 then z % 2 ^ 32 else z % 2 ^ 32 - 2 ^ 32

/-- The native expected version `Cas` sends: `int32(ver - 1)` with `ver ≥ 1`
a `uint64` (zk.go line 158). -/
def casSentVersion (ver : Nat) : Int := toInt32 (ver - 1)

/-- The native expected version the `Erase` check and `Commit`'s checks send:
`int32(ver) - 1` in `int32` arithmetic (zk.go lines 200 and 363). -/
def checkSentVersion (ver : Nat) : Int := wrapInt32 (toInt32 ver - 1)

/-- One underlying batch request, as assembled by the client
(`CheckVersionRequest`, `CreateRequest`, `SetDataRequest`, `DeleteRequest`). -/
inductive ZkOp where
  | check (path : List String) (version : Int)
  | create (path : List String) (data : List Nat) (ephemeral : Bool)
  | setData (path : List String) (data : List Nat) (version : Int)
  | delete (path : List String) (version : Int)
deriving DecidableEq, Repr

/-- Per-item result of a batch, mirroring `zkapi.MultiResponse`: the item's
error, and the stat version (meaningful for data writes). -/
structure MultiResult where
  error : Option ZkErr
  statVersion : Nat
deriving DecidableEq, Repr

/-- Does an expected native version (possibly the wildcard `-1`) accept a
node's current native version? -/
def versionOk (v : Int) (native : Nat) : Bool :=
  v = -1 || v = (native : Int)

/-- Semantics of one underlying request against a state: the new state and
the resulting stat version, or the service error. -/
def applyOp (s : ZkState) : ZkOp → Except ZkErr (ZkState × Nat)
  | ZkOp.check p v =>
    match lookupNode s p with
    | none => Except.error ZkErr.noNode
    | some n =>
      if versionOk v n.version then Except.ok (s, n.version)
      else Except.error ZkErr.badVersion
  | ZkOp.create p d eph =>
    match lookupNode s p.dropLast with
    | none => Except.error ZkErr.noNode
    | some parent =>
      if parent.ephemeral then Except.error ZkErr.noChildrenForEphemerals
      else
        match lookupNode s p with
        | some _ => Except.error ZkErr.nodeExists
        | none => Except.ok (addNode s p ⟨d, 0, eph⟩, 0)
  | ZkOp.setData p d v =>
    match lookupNode s p with
    | none => Except.error ZkErr.noNode
    | some n =>
      if versionOk v n.version then
        Except.ok (setNode s p ⟨d, n.version + 1, n.ephemeral⟩, n.version + 1)
      else Except.error ZkErr.badVersion
  | ZkOp.delete p v =>
    match lookupNode s p with
    | none => Except.error ZkErr.noNode
    | some n =>
      if versionOk v n.version then
        if hasChild s p then Except.error ZkErr.notEmpty
        else Except.ok (removeNode s p, 0)
      else Except.error ZkErr.badVersion

/-- Sequential application of a batch.  On the first failure the per-item
results report `none` for the already-applied items, the failing error for
the failing item, and `runtimeInconsistency` for the unattempted rest —
exactly the per-item errors the ZooKeeper multi response carries. -/
def applyOps : ZkState → List ZkOp → List MultiResult × Option ZkErr × ZkState
  | s, [] => ([], none, s)
  | s, op :: rest =>
    match applyOp s op with
    | Except.error e =>
      (⟨some e, 0⟩ :: rest.map (fun _ => ⟨some ZkErr.runtimeInconsistency, 0⟩),
        some e, s)
    | Except.ok (s2, v) =>
      let r := applyOps s2 rest
      (⟨none, v⟩ :: r.1, r.2.1, r.2.2)

/-- All-or-nothing batch submission (`conn.Multi`): on any failure the state
is left untouched, the overall error is the first failing item's error. -/
def applyMulti (s : ZkState) (ops : List ZkOp) :
    List MultiResult × Option ZkErr × ZkState :=
  let r := applyOps s ops
  match r.2.1 with
  | none => r
  | some e => (r.1, some e, s)

/-- Modelled from the spec: `goffkv.DisassembleKey` lives in the external
goffkv package, not in this repository.  Per the spec (§3, §4.1) a key is a
slash-delimited identifier that must decompose into a non-empty sequence of
non-empty segments, and malformed keys are rejected with a `MalformedKey`
error.  Every theorem below quantifies over the outcome of this function,
so only "succeeds with segments" versus "fails" matters. -/
def splitSegs : List Char → List (List Char)
  | [] => [[]]
  | c :: rest =>
    let r := splitSegs rest
    if c = '/' then [] :: r
    else
      match r with
      | [] => [[c]]
      | seg :: segs => (c :: seg) :: segs

def disassembleKey (key : String) : Except GoErr (List String) :=
  let segs := (splitSegs key.toList).map (fun cs => String.mk cs)
  if segs.any (fun t => t = "") then Except.error GoErr.malformedKey
  else Except.ok segs

example : disassembleKey "a/b" = Except.ok ["a", "b"] := by decide
example : disassembleKey "" = Except.error GoErr.malformedKey := by decide
example : casSentVersion (2 ^ 62) = -1 := by decide
example : checkSentVersion 0 = -1 := by decide
example : checkSentVersion 5 = 4 := by decide

/-- Embeds `zkClient.Create` (zk.go lines 96-113), with `pre` the client's
prefix segments (`assemblePath` is `pre ++ segs`).  Returns the Go result
and the service state after the call. -/
def zkCreate (s : ZkState) (pre : List String) (key : String)
    (value : List Nat) (lease : Bool) : Except GoErr Nat × ZkState :=
  match disassembleKey key with
  | Except.error e => (Except.error e, s)
  | Except.ok segs =>
    match applyOp s (ZkOp.create (pre ++ segs) value lease) with
    | Except.error e => (Except.error (convertError e), s)
    | Except.ok (s2, _) => (Except.ok 1, s2)

/-- Embeds `zkClient.Set` (zk.go lines 115-139).  The method makes up to two
service calls (a create attempt, then an unconditional overwrite); `s1` and
`s2` are the service states seen by each call, so concurrent interference
between them is representable. -/
def zkSet (s1 s2 : ZkState) (pre : List String) (key : String)
    (value : List Nat) : Except GoErr Nat :=
  match disassembleKey key with
  | Except.error e => Except.error e
  | Except.ok segs =>
    match applyOp s1 (ZkOp.create (pre ++ segs) value false) with
    | Except.ok _ => Except.ok 1
    | Except.error e =>
      if ¬ (e = ZkErr.nodeExists) then Except.error (convertError e)
      else
        match applyOp s2 (ZkOp.setData (pre ++ segs) value (-1)) with
        | Except.ok (_, v) => Except.ok (v + 1)
        | Except.error ZkErr.noNode => Except.ok (2 ^ 62)
        | Except.error e2 => Except.error (convertError e2)

/-- Embeds `zkClient.Cas` (zk.go lines 141-167). -/
def zkCas (s : ZkState) (pre : List String) (key : String)
    (value : List Nat) (ver : Nat) : Except GoErr Nat × ZkState :=
  if ver = 0 then
    match zkCreate s pre key value false with
    | (Except.ok v, s2) => (Except.ok v, s2)
    | (Except.error e, s2) =>
      if e = GoErr.entryExists then (Except.ok 0, s2) else (Except.error e, s2)
  else
    match disassembleKey key with
    | Except.error e => (Except.error e, s)
    | Except.ok segs =>
      match applyOp s (ZkOp.setData (pre ++ segs) value (casSentVersion ver)) with
      | Except.ok (s2, v) => (Except.ok (v + 1), s2)
      | Except.error ZkErr.badVersion => (Except.ok 0, s)
      | Except.error e => (Except.error (convertError e), s)

/-- Embeds the version logic of `zkClient.Exists` (zk.go lines 229-263);
watch arming is a concurrency effect and is not modelled. -/
def zkExists (s : ZkState) (pre : List String) (key : String) :
    Except GoErr Nat :=
  match disassembleKey key with
  | Except.error e => Except.error e
  | Except.ok segs =>
    match lookupNode s (pre ++ segs) with
    | some n => Except.ok (n.version + 1)
    | none => Except.ok 0

/-- Embeds the data/version logic of `zkClient.Get` (zk.go lines 265-295). -/
def zkGet (s : ZkState) (pre : List String) (key : String) :
    Except GoErr (Nat × List Nat) :=
  match disassembleKey key with
  | Except.error e => Except.error e
  | Except.ok segs =>
    match lookupNode s (pre ++ segs) with
    | none => Except.error (convertError ZkErr.noNode)
    | some n => Except.ok (n.version + 1, n.data)

/-- Embeds the listing logic of `zkClient.Children` (zk.go lines 297-330). -/
def zkChildren (s : ZkState) (pre : List String) (key : String) :
    Except GoErr (List String) :=
  match disassembleKey key with
  | Except.error e => Except.error e
  | Except.ok segs =>
    match lookupNode s (pre ++ segs) with
    | none => Except.error (convertError ZkErr.noNode)
    | some _ =>
      Except.ok ((childNames s (pre ++ segs)).map (fun c => key ++ "/" ++ c))

/-- A listing oracle: the response of `conn.Children` at each full path, at
the moment the recursive erase expansion asks for it.  Because it is an
arbitrary function, temporally inconsistent responses (a node listed by its
parent but reported gone when itself listed) are representable. -/
abbrev Listing := List String → Except ZkErr (List String)

/-- The listing responses a fixed service state `s` gives. -/
def listingOf (s : ZkState) : Listing := fun p =>
  match lookupNode s p with
  | some _ => Except.ok (childNames s p)
  | none => Except.error ZkErr.noNode

/-- Embeds `zkClient.makeEraseQuery` (zk.go lines 169-187): depth-first
expand the subtree under `segs` into delete requests appended to `ops`,
tolerating `ErrNoNode` from a child's recursive expansion.  `fuel` bounds
the recursion depth (the Go recursion is bounded by the actual tree depth);
on exhaustion the model returns the artificial `fuelOut` error. -/
def makeEraseQuery (L : Listing) (pre : List String) :
    Nat → List ZkOp → List String → List ZkOp × Option ZkErr
  | 0, ops, _ => (ops, some ZkErr.fuelOut)
  | Nat.succ fuel, ops, segs =>
    match L (pre ++ segs) with
    | Except.error e => (ops, some e)
    | Except.ok children =>
      let r := children.foldl (fun acc c =>
        match acc with
        | (aops, some e) => (aops, some e)
        | (aops, none) =>
          match makeEraseQuery L pre fuel aops (segs ++ [c]) with
          | (ops2, some e) =>
            if e = ZkErr.noNode then (ops2, none) else (ops2, some e)
          | (ops2, none) => (ops2, none)) (ops, none)
      match r with
      | (ops2, some e) => (ops2, some e)
      | (ops2, none) => (ops2 ++ [ZkOp.delete (pre ++ segs) (-1)], none)

/-- One step of the child loop inside `makeEraseQuery` (the body of the
`for _, child := range children` loop at zk.go lines 176-181), with `fuel`
the fuel passed to the recursive expansion of the child. -/
def meqStep (L : Listing) (pre : List String) (fuel : Nat) (segs : List String)
    (acc : List ZkOp × Option ZkErr) (c : String) : List ZkOp × Option ZkErr :=
  match acc with
  | (aops, some e) => (aops, some e)
  | (aops, none) =>
    match makeEraseQuery L pre fuel aops (segs ++ [c]) with
    | (ops2, some e) =>
      if e = ZkErr.noNode then (ops2, none) else (ops2, some e)
    | (ops2, none) => (ops2, none)

/-- The child loop of `makeEraseQuery` is a fold of `meqStep`. -/
theorem makeEraseQuery_succ (L : Listing) (pre : List String) (fuel : Nat)
    (ops : List ZkOp) (segs : List String) :
    makeEraseQuery L pre (fuel + 1) ops segs =
      match L (pre ++ segs) with
      | Except.error e => (ops, some e)
      | Except.ok children =>
        match children.foldl (meqStep L pre fuel segs) (ops, none) with
        | (ops2, some e) => (ops2, some e)
        | (ops2, none) => (ops2 ++ [ZkOp.delete (pre ++ segs) (-1)], none) :=
  rfl

/-- Outcome of one iteration of the `outermost` retry loop of
`zkClient.Erase`. -/
inductive EraseStep where
  | done (r : Except GoErr Unit) (s : ZkState)
  | retry
deriving DecidableEq, Repr

/-- One iteration of the retry loop of `zkClient.Erase` (zk.go lines
195-226): build the check-plus-deletes batch from listings `L`, submit it
against state `s`, and interpret the batch error. -/
def zkEraseStep (L : Listing) (s : ZkState) (pre : List String)
    (segs : List String) (ver : Nat) (fuel : Nat) : EraseStep :=
  let ops0 := [ZkOp.check (pre ++ segs) (checkSentVersion ver)]
  match makeEraseQuery L pre fuel ops0 segs with
  | (_, some e) => EraseStep.done (Except.error (convertError e)) s
  | (ops, none) =>
    let r := applyMulti s ops
    match r.2.1 with
    | none => EraseStep.done (Except.ok ()) r.2.2
    | some ZkErr.badVersion => EraseStep.done (Except.ok ()) s
    | some ZkErr.notEmpty => EraseStep.retry
    | some ZkErr.noNode =>
      if ¬ ((r.1.getD 0 ⟨none, 0⟩).error = none) then
        EraseStep.done (Except.error GoErr.noEntry) s
      else EraseStep.retry
    | some e => EraseStep.done (Except.error (convertError e)) s

/-- The retry loop of `zkClient.Erase`, one `(listing, state)` service
snapshot per attempt; `none` is the model artifact for running out of
modelled attempts (the Go loop is unbounded). -/
def zkEraseLoop (pre : List String) (segs : List String) (ver : Nat)
    (fuel : Nat) : List (Listing × ZkState) → Option (Except GoErr Unit)
  | [] => none
  | (L, s) :: rest =>
    match zkEraseStep L s pre segs ver fuel with
    | EraseStep.done r _ => some r
    | EraseStep.retry => zkEraseLoop pre segs ver fuel rest

/-- Embeds `zkClient.Erase` (zk.go lines 189-227). -/
def zkErase (pre : List String) (key : String) (ver : Nat) (fuel : Nat)
    (envs : List (Listing × ZkState)) : Option (Except GoErr Unit) :=
  match disassembleKey key with
  | Except.error e => some (Except.error e)
  | Except.ok segs => zkEraseLoop pre segs ver fuel envs

/-- The per-item result tag of the transaction build phase
(`resultKind`, zk.go lines 332-337). -/
inductive ResultKind where
  | rkCreate
  | rkSet
  | rkAux
deriving DecidableEq, Repr

/-- A version check of a transaction (`goffkv.TxnCheck`). -/
structure TxnCheck where
  key : String
  ver : Nat
deriving DecidableEq, Repr

/-- The kind of a user-level transaction operation (`goffkv.Create`,
`goffkv.Set`, `goffkv.Erase`). -/
inductive OpKind where
  | create
  | set
  | erase
deriving DecidableEq, Repr

/-- A user-level transaction operation (`goffkv.TxnOp`). -/
structure TxnOpReq where
  what : OpKind
  key : String
  value : List Nat
  lease : Bool
deriving DecidableEq, Repr

/-- A transaction: checks first, then operations (`goffkv.Txn`). -/
structure Txn where
  checks : List TxnCheck
  ops : List TxnOpReq
deriving DecidableEq, Repr

/-- A per-operation transaction result (`goffkv.TxnOpResult`). -/
structure TxnOpResult where
  what : OpKind
  ver : Nat
deriving DecidableEq, Repr

/-- Embeds `toUserOpIndex` (zk.go lines 339-346): the first index `i` with
`boundaries[i] ≥ op`, or `-1`. -/
def toUserOpIndex (boundaries : List Nat) (op : Nat) : Int :=
  match boundaries.findIdx? (fun x => op ≤ x) with
  | some i => Int.ofNat i
  | none => -1

/-- The accumulator of Commit's build phase: per-user-operation boundary
indices, the underlying item list, and the per-item result kinds. -/
structure BuildAcc where
  boundaries : List Nat
  ops : List ZkOp
  rks : List ResultKind
deriving DecidableEq, Repr

/-- The checks loop of `zkClient.Commit` (zk.go lines 355-368): one
version-check item per user check, each its own boundary. -/
def buildChecks (pre : List String) :
    List TxnCheck → BuildAcc → Except GoErr BuildAcc
  | [], acc => Except.ok acc
  | c :: rest, acc =>
    match disassembleKey c.key with
    | Except.error e => Except.error e
    | Except.ok segs =>
      let ops2 := acc.ops ++ [ZkOp.check (pre ++ segs) (checkSentVersion c.ver)]
      buildChecks pre rest
        ⟨acc.boundaries ++ [ops2.length - 1], ops2, acc.rks ++ [ResultKind.rkAux]⟩

/-- The ops loop of `zkClient.Commit` (zk.go lines 370-416): Create/Set
append one defining item; Erase expands through `makeEraseQuery`, its items
all tagged auxiliary, tolerating a missing target by appending a plain
delete. -/
def buildOps (L : Listing) (pre : List String) (fuel : Nat) :
    List TxnOpReq → BuildAcc → Except GoErr BuildAcc
  | [], acc => Except.ok acc
  | op :: rest, acc =>
    match disassembleKey op.key with
    | Except.error e => Except.error e
    | Except.ok segs =>
      match op.what with
      | OpKind.create =>
        let ops2 := acc.ops ++ [ZkOp.create (pre ++ segs) op.value op.lease]
        buildOps L pre fuel rest
          ⟨acc.boundaries ++ [ops2.length - 1], ops2,
            acc.rks ++ [ResultKind.rkCreate]⟩
      | OpKind.set =>
        let ops2 := acc.ops ++ [ZkOp.setData (pre ++ segs) op.value (-1)]
        buildOps L pre fuel rest
          ⟨acc.boundaries ++ [ops2.length - 1], ops2,
            acc.rks ++ [ResultKind.rkSet]⟩
      | OpKind.erase =>
        match makeEraseQuery L pre fuel acc.ops segs with
        | (mops, some e) =>
          if e = ZkErr.noNode then
            let ops2 := mops ++ [ZkOp.delete (pre ++ segs) (-1)]
            buildOps L pre fuel rest
              ⟨acc.boundaries ++ [ops2.length - 1], ops2,
                acc.rks ++ List.replicate (ops2.length - acc.ops.length)
                  ResultKind.rkAux⟩
          else Except.error (convertError e)
        | (mops, none) =>
          buildOps L pre fuel rest
            ⟨acc.boundaries ++ [mops.length - 1], mops,
              acc.rks ++ List.replicate (mops.length - acc.ops.length)
                ResultKind.rkAux⟩

/-- The whole build phase of one Commit attempt. -/
def commitBuild (L : Listing) (pre : List String) (fuel : Nat) (txn : Txn) :
    Except GoErr BuildAcc :=
  match buildChecks pre txn.checks ⟨[], [], []⟩ with
  | Except.error e => Except.error e
  | Except.ok acc1 => buildOps L pre fuel txn.ops acc1

/-- Outcome of a Commit attempt / of Commit itself.  `retry` is the
`continue outermost` of the Go loop; `panicked` models the
`panic("txn failed on non-existing op")` at zk.go line 426; `diverged` is
the model artifact for running out of modelled attempts. -/
inductive CommitOutcome where
  | ok (results : List TxnOpResult)
  | err (e : GoErr)
  | retry
  | panicked
  | diverged
deriving DecidableEq, Repr

/-- The reconciliation loop of `zkClient.Commit` (zk.go lines 421-446),
scanning the per-item results in order with their index `i`. -/
def reconcileLoop (boundaries : List Nat) (rks : List ResultKind) :
    Nat → List MultiResult → List TxnOpResult → CommitOutcome ⊕ List TxnOpResult
  | _, [], res => Sum.inr res
  | i, d :: rest, res =>
    match d.error with
    | some _ =>
      match toUserOpIndex boundaries i with
      | Int.negSucc _ => Sum.inl CommitOutcome.panicked
      | Int.ofNat k =>
        if ¬ (boundaries.getD k 0 = i) then Sum.inl CommitOutcome.retry
        else Sum.inl (CommitOutcome.err (GoErr.txnError k))
    | none =>
      match rks.getD i ResultKind.rkAux with
      | ResultKind.rkCreate =>
        reconcileLoop boundaries rks (i + 1) rest (res ++ [⟨OpKind.create, 1⟩])
      | ResultKind.rkSet =>
        reconcileLoop boundaries rks (i + 1) rest
          (res ++ [⟨OpKind.set, d.statVersion + 1⟩])
      | ResultKind.rkAux => reconcileLoop boundaries rks (i + 1) rest res

/-- One attempt of `zkClient.Commit` (one iteration of its `outermost` loop,
zk.go lines 350-452): build from listings `L`, submit against state `s`,
reconcile. -/
def zkCommitAttempt (L : Listing) (s : ZkState) (pre : List String)
    (fuel : Nat) (txn : Txn) : CommitOutcome :=
  match commitBuild L pre fuel txn with
  | Except.error e => CommitOutcome.err e
  | Except.ok acc =>
    let r := applyMulti s acc.ops
    match reconcileLoop acc.boundaries acc.rks 0 r.1 [] with
    | Sum.inl o => o
    | Sum.inr res =>
      match r.2.1 with
      | some e => CommitOutcome.err (convertError e)
      | none => CommitOutcome.ok res

/-- Embeds `zkClient.Commit` (zk.go lines 348-453), one `(listing, state)`
service snapshot per attempt of the unbounded retry loop. -/
def zkCommit (pre : List String) (fuel : Nat) (txn : Txn) :
    List (Listing × ZkState) → CommitOutcome
  | [] => CommitOutcome.diverged
  | (L, s) :: rest =>
    match zkCommitAttempt L s pre fuel txn with
    | CommitOutcome.retry => zkCommit pre fuel txn rest
    | o => o

/-- Well-formedness of the build accumulator: boundaries strictly
increasing, one result kind per item, and the last boundary is the index
of the last item (equivalently, no boundary yet means no items yet). -/
def buildInv (acc : BuildAcc) : Prop :=
  List.Chain' (fun a b => a < b) acc.boundaries ∧
  acc.rks.length = acc.ops.length ∧
  (match acc.boundaries.getLast? with
   | none => acc.ops = []
   | some b => b + 1 = acc.ops.length)

/-- The result list the reconciliation loop produces from aligned result
kinds and error-free item results (the `rks[i]` dispatch at zk.go lines
434-445). -/
def collectResults : List ResultKind → List MultiResult → List TxnOpResult
  | ResultKind.rkCreate :: rks, _ :: ds =>
    ⟨OpKind.create, 1⟩ :: collectResults rks ds
  | ResultKind.rkSet :: rks, d :: ds =>
    ⟨OpKind.set, d.statVersion + 1⟩ :: collectResults rks ds
  | ResultKind.rkAux :: rks, _ :: ds => collectResults rks ds
  | _, _ => []

/-- The per-user-operation contribution to Commit's result list, given the
chunk of item results belonging to that operation. -/
def opChunkResults (op : TxnOpReq) (ch : List MultiResult) : List TxnOpResult :=
  match op.what with
  | OpKind.create => [⟨OpKind.create, 1⟩]
  | OpKind.set => ch.map (fun d => ⟨OpKind.set, d.statVersion + 1⟩)
  | OpKind.erase => []

/-- The shape of the result-kind chunk the build phase appends for one
user-level operation. -/
def RkChunk (op : TxnOpReq) (ch : List ResultKind) : Prop :=
  match op.what with
  | OpKind.create => ch = [ResultKind.rkCreate]
  | OpKind.set => ch = [ResultKind.rkSet]
  | OpKind.erase =>
    ¬ (ch = []) ∧ ch = List.replicate ch.length ResultKind.rkAux

/-! ### Supporting lemmas -/

theorem disassembleKey_error {key : String} {e : GoErr}
    (h : disassembleKey key = Except.error e) : e = GoErr.malformedKey := by
  simp only [disassembleKey] at h
  split at h
  · exact ((Except.error.injEq _ _).mp h).symm
  · exact absurd h (by simp)

theorem lookupNode_eq_none_iff {s : ZkState} {p : List String} :
    lookupNode s p = none ↔ s.find? (fun e => e.1 = p) = none := by
  unfold lookupNode
  cases s.find? (fun e => e.1 = p) <;> simp

theorem lookupNode_addNode {s : ZkState} {p : List String} (n : ZNode)
    (h : lookupNode s p = none) : lookupNode (addNode s p n) p = some n := by
  unfold addNode lookupNode
  rw [List.find?_append, lookupNode_eq_none_iff.mp h]
  simp

/-- `meqStep` only ever appends to the accumulated item list. -/
theorem meqStep_appends (L : Listing) (pre : List String) (fuel : Nat)
    (segs : List String)
    (IH : ∀ ops segs2, ∃ t, (makeEraseQuery L pre fuel ops segs2).1 = ops ++ t)
    (acc : List ZkOp × Option ZkErr) (c : String) :
    ∃ t, (meqStep L pre fuel segs acc c).1 = acc.1 ++ t := by
  obtain ⟨aops, oe⟩ := acc
  cases oe with
  | some e => exact ⟨[], by simp [meqStep]⟩
  | none =>
    obtain ⟨t, ht⟩ := IH aops (segs ++ [c])
    refine ⟨t, ?_⟩
    show (match makeEraseQuery L pre fuel aops (segs ++ [c]) with
      | (ops2, some e) =>
        if e = ZkErr.noNode then (ops2, none) else (ops2, some e)
      | (ops2, none) => (ops2, none)).1 = aops ++ t
    rcases hm : makeEraseQuery L pre fuel aops (segs ++ [c]) with ⟨ops2, oe2⟩
    rw [hm] at ht
    cases oe2 with
    | some e =>
      by_cases he : e = ZkErr.noNode <;> simp [he] <;> exact ht
    | none => exact ht

theorem foldl_meqStep_appends (L : Listing) (pre : List String) (fuel : Nat)
    (segs : List String)
    (IH : ∀ ops segs2, ∃ t, (makeEraseQuery L pre fuel ops segs2).1 = ops ++ t) :
    ∀ (cs : List String) (acc : List ZkOp × Option ZkErr),
      ∃ t, (cs.foldl (meqStep L pre fuel segs) acc).1 = acc.1 ++ t := by
  intro cs
  induction cs with
  | nil => exact fun acc => ⟨[], by simp⟩
  | cons c cs ih =>
    intro acc
    obtain ⟨t1, ht1⟩ := meqStep_appends L pre fuel segs IH acc c
    obtain ⟨t2, ht2⟩ := ih (meqStep L pre fuel segs acc c)
    exact ⟨t1 ++ t2, by simp [List.foldl_cons, ht2, ht1]⟩

/-- `makeEraseQuery` only ever appends to the item list it is given. -/
theorem makeEraseQuery_appends (L : Listing) (pre : List String) :
    ∀ (fuel : Nat) (ops : List ZkOp) (segs : List String),
      ∃ t, (makeEraseQuery L pre fuel ops segs).1 = ops ++ t := by
  intro fuel
  induction fuel with
  | zero => exact fun ops segs => ⟨[], by simp [makeEraseQuery]⟩
  | succ fuel ih =>
    intro ops segs
    rw [makeEraseQuery_succ]
    rcases hL : L (pre ++ segs) with e | children
    · exact ⟨[], by simp⟩
    · obtain ⟨t, ht⟩ := foldl_meqStep_appends L pre fuel segs ih children (ops, none)
      show ∃ t2, (match children.foldl (meqStep L pre fuel segs) (ops, none) with
        | (ops2, some e) => (ops2, some e)
        | (ops2, none) =>
          (ops2 ++ [ZkOp.delete (pre ++ segs) (-1)], none)).1 = ops ++ t2
      rcases hf : children.foldl (meqStep L pre fuel segs) (ops, none) with ⟨ops2, oe2⟩
      rw [hf] at ht
      cases oe2 with
      | some e => exact ⟨t, ht⟩
      | none =>
        refine ⟨t ++ [ZkOp.delete (pre ++ segs) (-1)], ?_⟩
        have h2 : ops2 = ops ++ t := ht
        simp [h2]

/-- A successful expansion appends at least the target's own delete item. -/
theorem makeEraseQuery_ok_append (L : Listing) (pre : List String)
    (fuel : Nat) (ops : List ZkOp) (segs : List String) (ops2 : List ZkOp)
    (h : makeEraseQuery L pre fuel ops segs = (ops2, none)) :
    ∃ t, ops2 = ops ++ t ++ [ZkOp.delete (pre ++ segs) (-1)] := by
  cases fuel with
  | zero => simp [makeEraseQuery] at h
  | succ fuel =>
    rw [makeEraseQuery_succ] at h
    rcases hL : L (pre ++ segs) with e | children
    · rw [hL] at h; exact absurd h (by simp)
    · rw [hL] at h
      replace h : (match children.foldl (meqStep L pre fuel segs) (ops, none) with
        | (ops2, some e) => (ops2, some e)
        | (ops2, none) =>
          (ops2 ++ [ZkOp.delete (pre ++ segs) (-1)], none)) = (ops2, none) := h
      obtain ⟨t, ht⟩ := foldl_meqStep_appends L pre fuel segs
        (fun o sg => makeEraseQuery_appends L pre fuel o sg) children (ops, none)
      rcases hf : children.foldl (meqStep L pre fuel segs) (ops, none) with ⟨opsf, oef⟩
      rw [hf] at ht h
      cases oef with
      | some e => exact absurd h (by simp)
      | none =>
        refine ⟨t, ?_⟩
        have h2 : opsf = ops ++ t := ht
        have h1 : opsf ++ [ZkOp.delete (pre ++ segs) (-1)] = ops2 := by
          simpa using h
        rw [← h1, h2]

/-- The per-item result list of a batch has one entry per request. -/
theorem applyOps_length (ops : List ZkOp) :
    ∀ s : ZkState, (applyOps s ops).1.length = ops.length := by
  induction ops with
  | nil => intro s; rfl
  | cons op rest ih =>
    intro s
    unfold applyOps
    cases applyOp s op with
    | error e => simp
    | ok r => simp [ih r.1]

theorem applyMulti_fst (s : ZkState) (ops : List ZkOp) :
    (applyMulti s ops).1 = (applyOps s ops).1 := by
  show (match (applyOps s ops).2.1 with
    | none => applyOps s ops
    | some e => ((applyOps s ops).1, some e, s)).1 = (applyOps s ops).1
  cases h : (applyOps s ops).2.1 <;> rfl

theorem applyMulti_length (s : ZkState) (ops : List ZkOp) :
    (applyMulti s ops).1.length = ops.length := by
  rw [applyMulti_fst, applyOps_length ops s]

theorem applyOp_create_ok {s : ZkState} {p : List String} {d : List Nat}
    {eph : Bool} {s2 : ZkState} {st : Nat}
    (h : applyOp s (ZkOp.create p d eph) = Except.ok (s2, st)) :
    lookupNode s p = none ∧ s2 = addNode s p ⟨d, 0, eph⟩ := by
  simp only [applyOp] at h
  rcases hp : lookupNode s p.dropLast with _ | parent
  · rw [hp] at h; exact absurd h (by simp)
  · rw [hp] at h
    by_cases he : parent.ephemeral
    · simp [he] at h
    · simp only [he, if_false, Bool.false_eq_true, reduceIte] at h
      rcases hq : lookupNode s p with _ | n
      · rw [hq] at h
        simp only [Except.ok.injEq, Prod.mk.injEq] at h
        exact ⟨rfl, h.1.symm⟩
      · rw [hq] at h; exact absurd h (by simp)

/-- When a batch succeeds overall, every per-item result is error-free. -/
theorem applyOps_ok_all (ops : List ZkOp) :
    ∀ s : ZkState, (applyOps s ops).2.1 = none →
      ∀ d ∈ (applyOps s ops).1, d.error = none := by
  induction ops with
  | nil => intro s _ d hd; exact absurd hd (by simp [applyOps])
  | cons op rest ih =>
    intro s h d hd
    unfold applyOps at h hd
    cases hop : applyOp s op with
    | error e => rw [hop] at h; exact absurd h (by simp)
    | ok r =>
      rw [hop] at h hd
      simp at h hd
      rcases hd with hd | hd
      · rw [hd]
      · exact ih r.1 h d hd

/-! ### Claim C7 — Create -/

/-- C7: For every well-formed key, `Create(key, value, lease)` returns user
version 1 when the underlying node creation succeeds (creating the node
ephemeral exactly when `lease` is true), fails with an `EntryExists` error
when the node already exists, and passes any other underlying failure
through translated by `convertError`. -/
theorem claim_C7_create (s : ZkState) (pre : List String) (key : String)
    (value : List Nat) (lease : Bool) (segs : List String)
    (hkey : disassembleKey key = Except.ok segs) :
    (∀ s2 st,
      applyOp s (ZkOp.create (pre ++ segs) value lease) = Except.ok (s2, st) →
      zkCreate s pre key value lease = (Except.ok 1, s2) ∧
      lookupNode s2 (pre ++ segs) = some ⟨value, 0, lease⟩) ∧
    (applyOp s (ZkOp.create (pre ++ segs) value lease) =
        Except.error ZkErr.nodeExists →
      zkCreate s pre key value lease = (Except.error GoErr.entryExists, s)) ∧
    (∀ e, applyOp s (ZkOp.create (pre ++ segs) value lease) = Except.error e →
      zkCreate s pre key value lease = (Except.error (convertError e), s)) := by
  refine ⟨?_, ?_, ?_⟩
  · intro s2 st h
    obtain ⟨hnone, hs2⟩ := applyOp_create_ok h
    constructor
    · simp only [zkCreate, hkey, h]
    · rw [hs2]; exact lookupNode_addNode _ hnone
  · intro h
    simp only [zkCreate, hkey, h]
    rfl
  · intro e h
    simp only [zkCreate, hkey, h]

theorem claim_C7_create_witness :
    (zkCreate [([], ⟨[], 0, false⟩)] [] "k" [1] true =
      (Except.ok 1, [([], ⟨[], 0, false⟩), (["k"], ⟨[1], 0, true⟩)]) ∧
      lookupNode [([], ⟨[], 0, false⟩), (["k"], ⟨[1], 0, true⟩)] ["k"] =
        some ⟨[1], 0, true⟩) ∧
    zkCreate [([], ⟨[], 0, false⟩), (["k"], ⟨[2], 3, false⟩)] [] "k" [1] false =
      (Except.error GoErr.entryExists, [([], ⟨[], 0, false⟩), (["k"], ⟨[2], 3, false⟩)]) ∧
    zkCreate [] [] "k" [1] false =
      (Except.error (convertError ZkErr.noNode), []) :=
  ⟨(claim_C7_create [([], ⟨[], 0, false⟩)] [] "k" [1] true ["k"]
      (by decide)).1 [([], ⟨[], 0, false⟩), (["k"], ⟨[1], 0, true⟩)] 0 (by decide),
   (claim_C7_create [([], ⟨[], 0, false⟩), (["k"], ⟨[2], 3, false⟩)] [] "k" [1]
      false ["k"] (by decide)).2.1 (by decide),
   (claim_C7_create [] [] "k" [1] false ["k"]
      (by decide)).2.2 ZkErr.noNode (by decide)⟩

/-! ### Claim C5 — Set -/

/-- C5: For every well-formed key, `Set` first attempts creation and returns
user version 1 on success; if creation fails with already-exists it performs
an unconditional overwrite (wildcard native version `-1`) and returns the
resulting native version + 1; and if that overwrite fails because the node
vanished between the create attempt (state `s1`) and the overwrite (state
`s2`), `Set` returns the sentinel version `2^62` with no error. -/
theorem claim_C5_set (s1 s2 : ZkState) (pre : List String) (key : String)
    (value : List Nat) (segs : List String)
    (hkey : disassembleKey key = Except.ok segs) :
    (∀ s3 st,
      applyOp s1 (ZkOp.create (pre ++ segs) value false) = Except.ok (s3, st) →
      zkSet s1 s2 pre key value = Except.ok 1) ∧
    (applyOp s1 (ZkOp.create (pre ++ segs) value false) =
        Except.error ZkErr.nodeExists →
      (∀ n, lookupNode s2 (pre ++ segs) = some n →
        zkSet s1 s2 pre key value = Except.ok (n.version + 2)) ∧
      (lookupNode s2 (pre ++ segs) = none →
        zkSet s1 s2 pre key value = Except.ok (2 ^ 62))) := by
  constructor
  · intro s3 st h
    simp only [zkSet, hkey, h]
  · intro h
    constructor
    · intro n hn
      have hset : applyOp s2 (ZkOp.setData (pre ++ segs) value (-1)) =
          Except.ok (setNode s2 (pre ++ segs) ⟨value, n.version + 1, n.ephemeral⟩,
            n.version + 1) := by
        simp only [applyOp]
        rw [hn]
        simp [versionOk]
      simp only [zkSet, hkey, h, hset]
      norm_num
    · intro hn
      have hset : applyOp s2 (ZkOp.setData (pre ++ segs) value (-1)) =
          Except.error ZkErr.noNode := by
        simp only [applyOp]
        rw [hn]
      simp only [zkSet, hkey, h, hset]
      rfl

theorem claim_C5_set_witness :
    zkSet [([], ⟨[], 0, false⟩)] [] [] "k" [7] = Except.ok 1 ∧
    zkSet [([], ⟨[], 0, false⟩), (["k"], ⟨[1], 4, false⟩)]
      [([], ⟨[], 0, false⟩), (["k"], ⟨[1], 4, false⟩)] [] "k" [7] =
      Except.ok 6 ∧
    zkSet [([], ⟨[], 0, false⟩), (["k"], ⟨[1], 4, false⟩)] [] [] "k" [7] =
      Except.ok (2 ^ 62) :=
  ⟨(claim_C5_set [([], ⟨[], 0, false⟩)] [] [] "k" [7] ["k"] (by decide)).1
      [([], ⟨[], 0, false⟩), (["k"], ⟨[7], 0, false⟩)] 0 (by decide),
   ((claim_C5_set [([], ⟨[], 0, false⟩), (["k"], ⟨[1], 4, false⟩)]
      [([], ⟨[], 0, false⟩), (["k"], ⟨[1], 4, false⟩)] [] "k" [7] ["k"]
      (by decide)).2 (by decide)).1 ⟨[1], 4, false⟩ (by decide),
   ((claim_C5_set [([], ⟨[], 0, false⟩), (["k"], ⟨[1], 4, false⟩)] [] [] "k"
      [7] ["k"] (by decide)).2 (by decide)).2 (by decide)⟩

/-! ### Claims C4 and C10 — Cas and version truncation -/

theorem casSentVersion_small {ver : Nat} (h1 : 1 ≤ ver) (h2 : ver ≤ 2 ^ 31) :
    casSentVersion ver = (ver : Int) - 1 := by
  unfold casSentVersion toInt32
  have hm : (ver - 1) % 2 ^ 32 = ver - 1 := Nat.mod_eq_of_lt (by omega)
  rw [hm]
  rw [if_pos (by omega)]
  omega

/-- C4 (amended): For every well-formed key, `Cas(key, value, 0)` delegates
to `Create`, returning the created version on success and mapping an
already-exists failure to the conflict result `(0, nil)`; for
`1 ≤ expectedVersion ≤ 2^31` the conditional overwrite requires native
version exactly `expectedVersion - 1`, succeeding when it matches and
returning `(0, nil)` on a mismatch; and for every `expectedVersion ≥ 1` a
missing node is a hard `NoEntry` error.  (For larger versions the required
native version is the 32-bit truncation `casSentVersion`, see C10.) -/
theorem claim_C4_cas (s : ZkState) (pre : List String) (key : String)
    (value : List Nat) (segs : List String)
    (hkey : disassembleKey key = Except.ok segs) :
    (∀ s2 st,
      applyOp s (ZkOp.create (pre ++ segs) value false) = Except.ok (s2, st) →
      zkCas s pre key value 0 = (Except.ok 1, s2)) ∧
    (applyOp s (ZkOp.create (pre ++ segs) value false) =
        Except.error ZkErr.nodeExists →
      zkCas s pre key value 0 = (Except.ok 0, s)) ∧
    (∀ (ver : Nat) (n : ZNode), 1 ≤ ver → ver ≤ 2 ^ 31 →
      lookupNode s (pre ++ segs) = some n →
      (((n.version : Int) = (ver : Int) - 1 →
        zkCas s pre key value ver =
          (Except.ok (n.version + 2),
            setNode s (pre ++ segs) ⟨value, n.version + 1, n.ephemeral⟩)) ∧
       (¬ ((n.version : Int) = (ver : Int) - 1) →
        zkCas s pre key value ver = (Except.ok 0, s)))) ∧
    (∀ ver : Nat, 1 ≤ ver → lookupNode s (pre ++ segs) = none →
      zkCas s pre key value ver = (Except.error GoErr.noEntry, s)) := by
  refine ⟨?_, ?_, ?_, ?_⟩
  · intro s2 st h
    have hcr : zkCreate s pre key value false = (Except.ok 1, s2) := by
      simp only [zkCreate, hkey, h]
    simp only [zkCas, hcr]
    simp
  · intro h
    have hcr : zkCreate s pre key value false =
        (Except.error GoErr.entryExists, s) := by
      simp only [zkCreate, hkey, h]; rfl
    simp only [zkCas, hcr]
    simp
  · intro ver n hv1 hv2 hn
    have hne : ¬ (ver = 0) := by omega
    have hcv := casSentVersion_small hv1 hv2
    constructor
    · intro hmatch
      have hset : applyOp s (ZkOp.setData (pre ++ segs) value
          (casSentVersion ver)) =
          Except.ok (setNode s (pre ++ segs) ⟨value, n.version + 1, n.ephemeral⟩,
            n.version + 1) := by
        have hvo : versionOk (casSentVersion ver) n.version = true := by
          simp [versionOk, hcv, hmatch.symm]
        simp only [applyOp, hn, hvo]
        simp
      simp only [zkCas, if_neg hne, hkey, hset]
    · intro hmis
      have hset : applyOp s (ZkOp.setData (pre ++ segs) value
          (casSentVersion ver)) = Except.error ZkErr.badVersion := by
        have hvo : versionOk (casSentVersion ver) n.version = false := by
          simp only [versionOk, hcv]
          have hne1 : ¬ ((ver : Int) - 1 = -1) := by omega
          have hne2 : ¬ ((ver : Int) - 1 = (n.version : Int)) :=
            fun hc => hmis hc.symm
          simp [hne1, hne2]
        simp only [applyOp, hn, hvo]
        simp
      simp only [zkCas, if_neg hne, hkey, hset]
  · intro ver hv1 hn
    have hne : ¬ (ver = 0) := by omega
    have hset : applyOp s (ZkOp.setData (pre ++ segs) value
        (casSentVersion ver)) = Except.error ZkErr.noNode := by
      simp only [applyOp, hn]
    simp only [zkCas, if_neg hne, hkey, hset]
    rfl

theorem claim_C4_cas_witness :
    zkCas [([], ⟨[], 0, false⟩)] [] "k" [7] 0 =
      (Except.ok 1, [([], ⟨[], 0, false⟩), (["k"], ⟨[7], 0, false⟩)]) ∧
    zkCas [([], ⟨[], 0, false⟩), (["k"], ⟨[1], 0, false⟩)] [] "k" [7] 0 =
      (Except.ok 0, [([], ⟨[], 0, false⟩), (["k"], ⟨[1], 0, false⟩)]) ∧
    zkCas [([], ⟨[], 0, false⟩), (["k"], ⟨[1], 4, false⟩)] [] "k" [7] 5 =
      (Except.ok 6, [([], ⟨[], 0, false⟩), (["k"], ⟨[7], 5, false⟩)]) ∧
    zkCas [([], ⟨[], 0, false⟩), (["k"], ⟨[1], 4, false⟩)] [] "k" [7] 9 =
      (Except.ok 0, [([], ⟨[], 0, false⟩), (["k"], ⟨[1], 4, false⟩)]) ∧
    zkCas [([], ⟨[], 0, false⟩)] [] "k" [7] 3 =
      (Except.error GoErr.noEntry, [([], ⟨[], 0, false⟩)]) :=
  ⟨(claim_C4_cas [([], ⟨[], 0, false⟩)] [] "k" [7] ["k"] (by decide)).1
      [([], ⟨[], 0, false⟩), (["k"], ⟨[7], 0, false⟩)] 0 (by decide),
   (claim_C4_cas [([], ⟨[], 0, false⟩), (["k"], ⟨[1], 0, false⟩)] [] "k" [7]
      ["k"] (by decide)).2.1 (by decide),
   ((claim_C4_cas [([], ⟨[], 0, false⟩), (["k"], ⟨[1], 4, false⟩)] [] "k" [7]
      ["k"] (by decide)).2.2.1 5 ⟨[1], 4, false⟩ (by decide) (by decide)
      (by decide)).1 (by decide),
   ((claim_C4_cas [([], ⟨[], 0, false⟩), (["k"], ⟨[1], 4, false⟩)] [] "k" [7]
      ["k"] (by decide)).2.2.1 9 ⟨[1], 4, false⟩ (by decide) (by decide)
      (by decide)).2 (by decide),
   (claim_C4_cas [([], ⟨[], 0, false⟩)] [] "k" [7] ["k"] (by decide)).2.2.2 3
      (by decide) (by decide)⟩

/-- C4 counterexample: `Cas` against a node of user version 1 with the
mismatching expected version `2^32 + 1` does not return the conflict result
`(0, nil)`: the 32-bit truncation `int32(expectedVersion - 1) = 0` matches
the node's native version 0, so the overwrite succeeds and returns 2. -/
theorem claim_C4_cas_counterexample :
    (2 ^ 32 + 1 : Nat) ≠ 0 + 1 ∧
    zkCas [(["k"], ⟨[1], 0, false⟩)] [] "k" [7] (2 ^ 32 + 1) =
      (Except.ok 2, [(["k"], ⟨[7], 1, false⟩)]) := by
  constructor
  · intro h
    exact absurd h (by norm_num)
  · decide

/-- C10: The expected-version arguments sent to the underlying service are
truncated to 32 bits: `Cas` sends `casSentVersion = int32(ver - 1)` while
`Erase` and `Commit`'s checks send `checkSentVersion = int32(ver) - 1`;
consequently any two user versions congruent modulo `2^32` produce the
identical conditional request, and in particular `Cas` with the sentinel
version `2^62` sends native expected version `-1`, making the overwrite
unconditional. -/
theorem claim_C10_truncation :
    (∀ v w, v % 2 ^ 32 = w % 2 ^ 32 →
      checkSentVersion v = checkSentVersion w) ∧
    (∀ v w, 1 ≤ v → 1 ≤ w → v % 2 ^ 32 = w % 2 ^ 32 →
      casSentVersion v = casSentVersion w) ∧
    casSentVersion (2 ^ 62) = -1 ∧
    (∀ s pre key value segs n, disassembleKey key = Except.ok segs →
      lookupNode s (pre ++ segs) = some n →
      zkCas s pre key value (2 ^ 62) =
        (Except.ok (n.version + 2),
          setNode s (pre ++ segs) ⟨value, n.version + 1, n.ephemeral⟩)) := by
  have hsent : casSentVersion (2 ^ 62) = -1 := by decide
  refine ⟨?_, ?_, hsent, ?_⟩
  · intro v w h
    unfold checkSentVersion toInt32
    rw [h]
  · intro v w hv hw h
    unfold casSentVersion toInt32
    have : (v - 1) % 2 ^ 32 = (w - 1) % 2 ^ 32 := by omega
    rw [this]
  · intro s pre key value segs n hkey hn
    have hne : ¬ ((2 ^ 62 : Nat) = 0) := by positivity
    have hset : applyOp s (ZkOp.setData (pre ++ segs) value
        (casSentVersion (2 ^ 62))) =
        Except.ok (setNode s (pre ++ segs) ⟨value, n.version + 1, n.ephemeral⟩,
          n.version + 1) := by
      simp only [applyOp]
      rw [hn, hsent]
      simp [versionOk]
    simp only [zkCas, if_neg hne, hkey, hset]

theorem claim_C10_truncation_witness :
    checkSentVersion 5 = checkSentVersion (2 ^ 32 + 5) ∧
    casSentVersion 5 = casSentVersion (2 ^ 32 + 5) ∧
    zkCas [(["k"], ⟨[1], 4, false⟩)] [] "k" [7] (2 ^ 62) =
      (Except.ok 6, [(["k"], ⟨[7], 5, false⟩)]) :=
  ⟨claim_C10_truncation.1 5 (2 ^ 32 + 5) (by norm_num),
   claim_C10_truncation.2.1 5 (2 ^ 32 + 5) (by norm_num) (by norm_num)
     (by norm_num),
   claim_C10_truncation.2.2.2 [(["k"], ⟨[1], 4, false⟩)] [] "k" [7] ["k"]
     ⟨[1], 4, false⟩ (by decide) (by decide)⟩

/-! ### Claims C1 and C6 — Erase -/

/-- C1 (amended): For every well-formed key K held at native version
`n.version` and every requested version whose sent check version
`checkSentVersion ver` is neither the wildcard `-1` (i.e. `ver` is not
congruent to 0 modulo `2^32`; in particular not `ver = 0`) nor equal to
K's native version, `Erase(K, ver)` returns success (no error) and leaves
the state — K and its entire subtree — untouched; the version mismatch is
never surfaced as an error. -/
theorem claim_C1_erase_mismatch (L : Listing) (s : ZkState)
    (pre : List String) (key : String) (segs : List String) (ver fuel : Nat)
    (envs : List (Listing × ZkState)) (n : ZNode)
    (hkey : disassembleKey key = Except.ok segs)
    (hn : lookupNode s (pre ++ segs) = some n)
    (h0 : ¬ (checkSentVersion ver = -1))
    (hv : ¬ (checkSentVersion ver = (n.version : Int)))
    (hq : (makeEraseQuery L pre fuel
        [ZkOp.check (pre ++ segs) (checkSentVersion ver)] segs).2 = none) :
    zkEraseStep L s pre segs ver fuel = EraseStep.done (Except.ok ()) s ∧
    zkErase pre key ver fuel ((L, s) :: envs) = some (Except.ok ()) := by
  rcases hq2 : makeEraseQuery L pre fuel
      [ZkOp.check (pre ++ segs) (checkSentVersion ver)] segs with ⟨ops, oe⟩
  rw [hq2] at hq
  replace hq : oe = none := hq
  subst hq
  obtain ⟨t, ht⟩ := makeEraseQuery_appends L pre fuel
    [ZkOp.check (pre ++ segs) (checkSentVersion ver)] segs
  rw [hq2] at ht
  replace ht : ops = [ZkOp.check (pre ++ segs) (checkSentVersion ver)] ++ t := ht
  subst ht
  have hvo : versionOk (checkSentVersion ver) n.version = false := by
    simp [versionOk, h0, hv]
  have hone : applyOp s (ZkOp.check (pre ++ segs) (checkSentVersion ver)) =
      Except.error ZkErr.badVersion := by
    simp only [applyOp, hn, hvo]
    simp
  have hops : applyOps s ([ZkOp.check (pre ++ segs) (checkSentVersion ver)] ++ t) =
      (⟨some ZkErr.badVersion, 0⟩ ::
          t.map (fun _ => ⟨some ZkErr.runtimeInconsistency, 0⟩),
        some ZkErr.badVersion, s) := by
    simp only [List.singleton_append, applyOps, hone]
    rfl
  have hmulti : applyMulti s ([ZkOp.check (pre ++ segs) (checkSentVersion ver)] ++ t) =
      (⟨some ZkErr.badVersion, 0⟩ ::
          t.map (fun _ => ⟨some ZkErr.runtimeInconsistency, 0⟩),
        some ZkErr.badVersion, s) := by
    simp only [applyMulti, hops]
  have hstep : zkEraseStep L s pre segs ver fuel = EraseStep.done (Except.ok ()) s := by
    simp only [zkEraseStep, hq2, hmulti]
  refine ⟨hstep, ?_⟩
  simp only [zkErase, hkey, zkEraseLoop, hstep]

theorem claim_C1_erase_mismatch_witness :
    zkEraseStep (listingOf [(["k"], ⟨[1], 4, false⟩)]) [(["k"], ⟨[1], 4, false⟩)]
      [] ["k"] 3 1 = EraseStep.done (Except.ok ()) [(["k"], ⟨[1], 4, false⟩)] ∧
    zkErase [] "k" 3 1 [(listingOf [(["k"], ⟨[1], 4, false⟩)],
      [(["k"], ⟨[1], 4, false⟩)])] = some (Except.ok ()) :=
  claim_C1_erase_mismatch (listingOf [(["k"], ⟨[1], 4, false⟩)])
    [(["k"], ⟨[1], 4, false⟩)] [] "k" ["k"] 3 1 [] ⟨[1], 4, false⟩
    (by decide) (by decide) (by decide) (by decide) (by decide)

/-- C1 counterexample: the claim includes `expectedVersion = 0` while K
exists, but `Erase(K, 0)` sends the check version `int32(0) - 1 = -1`,
which the service treats as the wildcard: the check passes and the subtree
is deleted.  Here K exists at user version 1 (so the requested version 0
does not match), yet `Erase` succeeds and the final state is empty — K was
not left untouched. -/
theorem claim_C1_erase_counterexample :
    (0 : Nat) ≠ 4 + 1 ∧
    lookupNode [(["k"], ⟨[1], 4, false⟩)] ["k"] = some ⟨[1], 4, false⟩ ∧
    zkEraseStep (listingOf [(["k"], ⟨[1], 4, false⟩)]) [(["k"], ⟨[1], 4, false⟩)]
      [] ["k"] 0 1 = EraseStep.done (Except.ok ()) [] ∧
    zkErase [] "k" 0 1 [(listingOf [(["k"], ⟨[1], 4, false⟩)],
      [(["k"], ⟨[1], 4, false⟩)])] = some (Except.ok ()) := by
  refine ⟨by decide, by decide, by decide, by decide⟩

/-- C6: During recursive erase expansion, a descendant node that vanishes
between being listed by its parent and being listed itself is tolerated
silently — its recursive expansion returns `ErrNoNode`, which the child
loop swallows, adding no error and no delete item; but if the erase target
itself cannot be listed before any batch is built, `Erase` fails with a
`NoEntry` error regardless of the requested version. -/
theorem claim_C6_erase_missing :
    (∀ (L : Listing) (pre : List String) (fuel : Nat) (ops : List ZkOp)
        (segs : List String) (c : String),
      L (pre ++ (segs ++ [c])) = Except.error ZkErr.noNode →
      makeEraseQuery L pre (fuel + 1) ops (segs ++ [c]) =
        (ops, some ZkErr.noNode) ∧
      meqStep L pre (fuel + 1) segs (ops, none) c = (ops, none)) ∧
    (∀ (L : Listing) (s : ZkState) (pre : List String) (key : String)
        (segs : List String) (ver fuel : Nat)
        (envs : List (Listing × ZkState)),
      disassembleKey key = Except.ok segs →
      L (pre ++ segs) = Except.error ZkErr.noNode →
      zkEraseStep L s pre segs ver (fuel + 1) =
        EraseStep.done (Except.error GoErr.noEntry) s ∧
      zkErase pre key ver (fuel + 1) ((L, s) :: envs) =
        some (Except.error GoErr.noEntry)) := by
  constructor
  · intro L pre fuel ops segs c hmiss
    have h1 : makeEraseQuery L pre (fuel + 1) ops (segs ++ [c]) =
        (ops, some ZkErr.noNode) := by
      rw [makeEraseQuery_succ, hmiss]
    refine ⟨h1, ?_⟩
    simp [meqStep, h1]
  · intro L s pre key segs ver fuel envs hkey hL
    have h2 : makeEraseQuery L pre (fuel + 1)
        [ZkOp.check (pre ++ segs) (checkSentVersion ver)] segs =
        ([ZkOp.check (pre ++ segs) (checkSentVersion ver)],
          some ZkErr.noNode) := by
      rw [makeEraseQuery_succ, hL]
    have hstep : zkEraseStep L s pre segs ver (fuel + 1) =
        EraseStep.done (Except.error GoErr.noEntry) s := by
      simp only [zkEraseStep, h2]
      rfl
    refine ⟨hstep, ?_⟩
    simp only [zkErase, hkey, zkEraseLoop, hstep]

theorem claim_C6_erase_missing_witness :
    (makeEraseQuery (fun _ => Except.error ZkErr.noNode) [] 1 [] (["a"] ++ ["b"]) =
      ([], some ZkErr.noNode) ∧
     meqStep (fun _ => Except.error ZkErr.noNode) [] 1 ["a"] ([], none) "b" =
      ([], none)) ∧
    (zkEraseStep (fun _ => Except.error ZkErr.noNode) [] [] ["a"] 7 1 =
      EraseStep.done (Except.error GoErr.noEntry) [] ∧
     zkErase [] "a" 7 1 [((fun _ => Except.error ZkErr.noNode), [])] =
      some (Except.error GoErr.noEntry)) :=
  ⟨claim_C6_erase_missing.1 (fun _ => Except.error ZkErr.noNode) [] 0 [] ["a"]
      "b" rfl,
   claim_C6_erase_missing.2 (fun _ => Except.error ZkErr.noNode) [] [] "a"
      ["a"] 7 0 [] (by decide) rfl⟩

/-! ### Claim C8 — malformed keys -/

theorem buildChecks_hits_error (pre : List String) (key : String) (e : GoErr)
    (ver : Nat) (hkey : disassembleKey key = Except.error e) :
    ∀ (good rest : List TxnCheck) (acc : BuildAcc),
      (∀ c ∈ good, ∃ sg, disassembleKey c.key = Except.ok sg) →
      buildChecks pre (good ++ ⟨key, ver⟩ :: rest) acc = Except.error e := by
  intro good
  induction good with
  | nil =>
    intro rest acc _
    simp only [List.nil_append, buildChecks, hkey]
  | cons c good ih =>
    intro rest acc hgood
    obtain ⟨sg, hsg⟩ := hgood c (by simp)
    simp only [List.cons_append, buildChecks, hsg]
    exact ih rest _ (fun c2 hc2 => hgood c2 (by simp [hc2]))

theorem buildChecks_all_ok (pre : List String) :
    ∀ (checks : List TxnCheck) (acc : BuildAcc),
      (∀ c ∈ checks, ∃ sg, disassembleKey c.key = Except.ok sg) →
      ∃ acc2, buildChecks pre checks acc = Except.ok acc2 := by
  intro checks
  induction checks with
  | nil => intro acc _; exact ⟨acc, rfl⟩
  | cons c checks ih =>
    intro acc hok
    obtain ⟨sg, hsg⟩ := hok c (by simp)
    simp only [buildChecks, hsg]
    exact ih _ (fun c2 hc2 => hok c2 (by simp [hc2]))

theorem buildOps_hits_error (L : Listing) (pre : List String) (fuel : Nat)
    (key : String) (e : GoErr) (value : List Nat) (lease : Bool) (w : OpKind)
    (hkey : disassembleKey key = Except.error e) :
    ∀ (good rest : List TxnOpReq) (acc : BuildAcc),
      (∀ o ∈ good, (o.what = OpKind.create ∨ o.what = OpKind.set) ∧
        ∃ sg, disassembleKey o.key = Except.ok sg) →
      buildOps L pre fuel (good ++ ⟨w, key, value, lease⟩ :: rest) acc =
        Except.error e := by
  intro good
  induction good with
  | nil =>
    intro rest acc _
    simp only [List.nil_append, buildOps, hkey]
  | cons o good ih =>
    intro rest acc hgood
    obtain ⟨hw, sg, hsg⟩ := hgood o (by simp)
    rcases hw with hw | hw <;>
      simp only [List.cons_append, buildOps, hsg, hw] <;>
      exact ih rest _ (fun o2 ho2 => hgood o2 (by simp [ho2]))

/-- C8 (amended): Every public operation disassembles its key(s) before
contacting the service, so a key that fails to decompose makes `Create`,
`Set`, `Cas`, `Erase`, `Exists`, `Get` and `Children` return the
key-decomposition error with the service state untouched and without any
service interaction (the result is independent of every modelled service
snapshot); for `Commit` the same holds when the malformed key occurs among
the Checks, or among the Ops with only Create/Set ops of well-formed keys
before it — an Erase op built before the malformed key is reached already
performs its listing calls (see the counterexample). -/
theorem claim_C8_malformed (key : String) (e : GoErr)
    (hkey : disassembleKey key = Except.error e) :
    (∀ s pre value lease, zkCreate s pre key value lease = (Except.error e, s)) ∧
    (∀ s1 s2 pre value, zkSet s1 s2 pre key value = Except.error e) ∧
    (∀ s pre value ver, zkCas s pre key value ver = (Except.error e, s)) ∧
    (∀ pre ver fuel envs, zkErase pre key ver fuel envs = some (Except.error e)) ∧
    (∀ s pre, zkExists s pre key = Except.error e) ∧
    (∀ s pre, zkGet s pre key = Except.error e) ∧
    (∀ s pre, zkChildren s pre key = Except.error e) ∧
    (∀ (L : Listing) (s : ZkState) pre fuel envs ver
        (good rest : List TxnCheck) (ops : List TxnOpReq),
      (∀ c ∈ good, ∃ sg, disassembleKey c.key = Except.ok sg) →
      zkCommit pre fuel ⟨good ++ ⟨key, ver⟩ :: rest, ops⟩ ((L, s) :: envs) =
        CommitOutcome.err e) ∧
    (∀ (L : Listing) (s : ZkState) pre fuel envs (checks : List TxnCheck)
        (good rest : List TxnOpReq) (w : OpKind) value lease,
      (∀ c ∈ checks, ∃ sg, disassembleKey c.key = Except.ok sg) →
      (∀ o ∈ good, (o.what = OpKind.create ∨ o.what = OpKind.set) ∧
        ∃ sg, disassembleKey o.key = Except.ok sg) →
      zkCommit pre fuel ⟨checks, good ++ ⟨w, key, value, lease⟩ :: rest⟩
        ((L, s) :: envs) = CommitOutcome.err e) := by
  have hmk : e = GoErr.malformedKey := disassembleKey_error hkey
  refine ⟨?_, ?_, ?_, ?_, ?_, ?_, ?_, ?_, ?_⟩
  · intro s pre value lease
    simp only [zkCreate, hkey]
  · intro s1 s2 pre value
    simp only [zkSet, hkey]
  · intro s pre value ver
    by_cases hv : ver = 0
    · subst hv
      have hcr : zkCreate s pre key value false = (Except.error e, s) := by
        simp only [zkCreate, hkey]
      have hne : ¬ (e = GoErr.entryExists) := by rw [hmk]; intro hc; cases hc
      simp only [zkCas, if_pos rfl, hcr, if_neg hne]
      simp
    · simp only [zkCas, if_neg hv, hkey]
  · intro pre ver fuel envs
    simp only [zkErase, hkey]
  · intro s pre
    simp only [zkExists, hkey]
  · intro s pre
    simp only [zkGet, hkey]
  · intro s pre
    simp only [zkChildren, hkey]
  · intro L s pre fuel envs ver good rest ops hgood
    have hb := buildChecks_hits_error pre key e ver hkey good rest
      ⟨[], [], []⟩ hgood
    have hattempt : zkCommitAttempt L s pre fuel ⟨good ++ ⟨key, ver⟩ :: rest, ops⟩ =
        CommitOutcome.err e := by
      simp only [zkCommitAttempt, commitBuild, hb]
    simp only [zkCommit, hattempt]
  · intro L s pre fuel envs checks good rest w value lease hchecks hgood
    obtain ⟨acc1, hacc1⟩ := buildChecks_all_ok pre checks ⟨[], [], []⟩ hchecks
    have hb := buildOps_hits_error L pre fuel key e value lease w hkey good
      rest acc1 hgood
    have hattempt : zkCommitAttempt L s pre fuel
        ⟨checks, good ++ ⟨w, key, value, lease⟩ :: rest⟩ =
        CommitOutcome.err e := by
      simp only [zkCommitAttempt, commitBuild, hacc1, hb]
    simp only [zkCommit, hattempt]

theorem claim_C8_malformed_witness :
    zkCreate [] [] "" [1] false = (Except.error GoErr.malformedKey, []) ∧
    zkSet [] [] [] "" [1] = Except.error GoErr.malformedKey ∧
    zkCas [] [] "" [1] 0 = (Except.error GoErr.malformedKey, []) ∧
    zkErase [] "" 1 1 [] = some (Except.error GoErr.malformedKey) ∧
    zkExists [] [] "" = Except.error GoErr.malformedKey ∧
    zkGet [] [] "" = Except.error GoErr.malformedKey ∧
    zkChildren [] [] "" = Except.error GoErr.malformedKey ∧
    zkCommit [] 1 ⟨[⟨"x", 1⟩, ⟨"", 5⟩], []⟩ [((fun _ => Except.ok []), [])] =
      CommitOutcome.err GoErr.malformedKey ∧
    zkCommit [] 1 ⟨[], [⟨OpKind.create, "x", [2], false⟩,
        ⟨OpKind.set, "", [3], false⟩]⟩ [((fun _ => Except.ok []), [])] =
      CommitOutcome.err GoErr.malformedKey := by
  have h := claim_C8_malformed "" GoErr.malformedKey (by decide)
  refine ⟨h.1 [] [] [1] false, h.2.1 [] [] [] [1], h.2.2.1 [] [] [1] 0,
    h.2.2.2.1 [] 1 1 [], h.2.2.2.2.1 [] [], h.2.2.2.2.2.1 [] [],
    h.2.2.2.2.2.2.1 [] [], ?_, ?_⟩
  · refine h.2.2.2.2.2.2.2.1 (fun _ => Except.ok []) [] [] 1 [] 5
      [⟨"x", 1⟩] [] [] ?_
    intro c hc
    rw [List.mem_singleton] at hc
    subst hc
    exact ⟨["x"], by decide⟩
  · refine h.2.2.2.2.2.2.2.2 (fun _ => Except.ok []) [] [] 1 [] []
      [⟨OpKind.create, "x", [2], false⟩] [] OpKind.set [3] false
      (fun c hc => absurd hc (by simp)) ?_
    intro o ho
    rw [List.mem_singleton] at ho
    subst ho
    exact ⟨Or.inl rfl, ["x"], by decide⟩

/-- C8 counterexample: in `Commit`, an Erase op is expanded — performing
listing calls against the service — before a later op's key is
disassembled.  With ops `[Erase "a", Create ""]` (the second key malformed)
and a service whose listing call fails with a session-level error, Commit
returns that listing error, not the key-decomposition error: the malformed
key was not rejected before a service call was made. -/
theorem claim_C8_counterexample :
    disassembleKey "" = Except.error GoErr.malformedKey ∧
    zkCommit [] 3 ⟨[], [⟨OpKind.erase, "a", [], false⟩,
        ⟨OpKind.create, "", [], false⟩]⟩
      [((fun _ => Except.error (ZkErr.other 7)), [])] =
      CommitOutcome.err (GoErr.zk (ZkErr.other 7)) :=
  ⟨by decide, by decide⟩

/-! ### Claim C2 — Commit reconciliation of a failed item -/

/-- Scanning error-free items only extends the result accumulator and
advances the index. -/
theorem reconcileLoop_skip (b : List Nat) (rks : List ResultKind)
    (ds : List MultiResult) :
    ∀ (d0 : List MultiResult) (i : Nat) (res : List TxnOpResult),
      (∀ d ∈ d0, d.error = none) →
      ∃ res2, reconcileLoop b rks i (d0 ++ ds) res =
        reconcileLoop b rks (i + d0.length) ds res2 := by
  intro d0
  induction d0 with
  | nil => intro i res _; exact ⟨res, by simp⟩
  | cons d d0 ih =>
    intro i res hall
    have hd : d.error = none := hall d (by simp)
    have harith : i + (d :: d0).length = i + 1 + d0.length := by
      simp [List.length_cons]
      omega
    rw [harith]
    simp only [List.cons_append, reconcileLoop, hd]
    rcases hr : rks.getD i ResultKind.rkAux with _ | _ | _
    · exact ih (i + 1) (res ++ [⟨OpKind.create, 1⟩])
        (fun d2 hd2 => hall d2 (by simp [hd2]))
    · exact ih (i + 1) (res ++ [⟨OpKind.set, d.statVersion + 1⟩])
        (fun d2 hd2 => hall d2 (by simp [hd2]))
    · exact ih (i + 1) res (fun d2 hd2 => hall d2 (by simp [hd2]))

/-- C2: In Commit's reconciliation, for a submitted batch whose per-item
results contain a first failed item (at index `d0.length`, with the items
of `d0` before it error-free): if that item is the defining (boundary)
item of its owning user-level operation `k` (counting Checks before Ops),
Commit returns `TxnError k` and no result list; if it is auxiliary (not
the boundary of its owner), the attempt retries — all results are
discarded and Commit rebuilds and resubmits against the next service
snapshot, surfacing no error from this attempt. -/
theorem claim_C2_commit_reconcile (L : Listing) (s : ZkState)
    (pre : List String) (fuel : Nat) (txn : Txn) (acc : BuildAcc)
    (envs : List (Listing × ZkState)) (d0 rest : List MultiResult)
    (dbad : MultiResult) (e : ZkErr) (k : Nat)
    (hacc : commitBuild L pre fuel txn = Except.ok acc)
    (hdata : (applyMulti s acc.ops).1 = d0 ++ dbad :: rest)
    (h0 : ∀ d ∈ d0, d.error = none)
    (hbad : dbad.error = some e)
    (huser : toUserOpIndex acc.boundaries d0.length = Int.ofNat k) :
    (acc.boundaries.getD k 0 = d0.length →
      zkCommitAttempt L s pre fuel txn = CommitOutcome.err (GoErr.txnError k) ∧
      zkCommit pre fuel txn ((L, s) :: envs) =
        CommitOutcome.err (GoErr.txnError k)) ∧
    (¬ (acc.boundaries.getD k 0 = d0.length) →
      zkCommitAttempt L s pre fuel txn = CommitOutcome.retry ∧
      zkCommit pre fuel txn ((L, s) :: envs) = zkCommit pre fuel txn envs) := by
  obtain ⟨res2, hres2⟩ := reconcileLoop_skip acc.boundaries acc.rks
    (dbad :: rest) d0 0 [] h0
  rw [Nat.zero_add] at hres2
  constructor
  · intro hk
    have hone : reconcileLoop acc.boundaries acc.rks d0.length
        (dbad :: rest) res2 =
        Sum.inl (CommitOutcome.err (GoErr.txnError k)) := by
      simp only [reconcileLoop, hbad, huser, hk]
      simp
    have hattempt : zkCommitAttempt L s pre fuel txn =
        CommitOutcome.err (GoErr.txnError k) := by
      simp only [zkCommitAttempt, hacc, hdata, hres2, hone]
    exact ⟨hattempt, by simp only [zkCommit, hattempt]⟩
  · intro hk
    have hone : reconcileLoop acc.boundaries acc.rks d0.length
        (dbad :: rest) res2 = Sum.inl CommitOutcome.retry := by
      simp only [reconcileLoop, hbad, huser, hk]
      simp
    have hattempt : zkCommitAttempt L s pre fuel txn = CommitOutcome.retry := by
      simp only [zkCommitAttempt, hacc, hdata, hres2, hone]
    exact ⟨hattempt, by simp only [zkCommit, hattempt]⟩

theorem claim_C2_commit_reconcile_witness :
    zkCommit [] 1 ⟨[⟨"k", 5⟩], []⟩ [((fun _ => Except.ok []), [])] =
      CommitOutcome.err (GoErr.txnError 0) ∧
    zkCommit [] 3 ⟨[], [⟨OpKind.erase, "a", [], false⟩]⟩
      [(listingOf [(["a"], ⟨[], 0, false⟩), (["a", "b"], ⟨[], 0, false⟩)],
        [(["a"], ⟨[], 0, false⟩)])] = CommitOutcome.diverged := by
  constructor
  · exact ((claim_C2_commit_reconcile (fun _ => Except.ok []) [] [] 1
      ⟨[⟨"k", 5⟩], []⟩ ⟨[0], [ZkOp.check ["k"] (checkSentVersion 5)],
        [ResultKind.rkAux]⟩ [] [] [] ⟨some ZkErr.noNode, 0⟩ ZkErr.noNode 0
      (by decide) (by decide) (by simp) (by decide) (by decide)).1
      (by decide)).2
  · have h := ((claim_C2_commit_reconcile
      (listingOf [(["a"], ⟨[], 0, false⟩), (["a", "b"], ⟨[], 0, false⟩)])
      [(["a"], ⟨[], 0, false⟩)] [] 3 ⟨[], [⟨OpKind.erase, "a", [], false⟩]⟩
      ⟨[1], [ZkOp.delete ["a", "b"] (-1), ZkOp.delete ["a"] (-1)],
        [ResultKind.rkAux, ResultKind.rkAux]⟩ [] []
      [⟨some ZkErr.runtimeInconsistency, 0⟩] ⟨some ZkErr.noNode, 0⟩
      ZkErr.noNode 0 (by decide) (by decide) (by simp) (by decide)
      (by decide)).2 (by decide)).2
    exact h

/-! ### Claim C9 — boundary invariants and unreachability of the panic -/

theorem mem_of_getLast?_eq {l : List Nat} {a : Nat} (h : l.getLast? = some a) :
    a ∈ l := by
  induction l with
  | nil => simp at h
  | cons x xs ih =>
    cases xs with
    | nil => simp at h; simp [h]
    | cons y ys =>
      rw [List.getLast?_cons_cons] at h
      exact List.mem_cons_of_mem x (ih h)

theorem findIdx?_isSome_of_mem {l : List Nat} {p : Nat → Bool} {x : Nat}
    (hx : x ∈ l) (hp : p x = true) : ∃ j, l.findIdx? p = some j := by
  rcases hf : l.findIdx? p with _ | j
  · rw [List.findIdx?_eq_none_iff] at hf
    rw [hf x hx] at hp
    cases hp
  · exact ⟨j, rfl⟩

theorem toUserOpIndex_ofNat {acc : BuildAcc} (hinv : buildInv acc) :
    ∀ i, i < acc.ops.length →
      ∃ k, toUserOpIndex acc.boundaries i = Int.ofNat k := by
  intro i hi
  obtain ⟨hchain, hlen, hlast⟩ := hinv
  rcases hl : acc.boundaries.getLast? with _ | b0
  · simp only [hl] at hlast
    rw [hlast] at hi
    simp at hi
  · simp only [hl] at hlast
    have hb0 : b0 ∈ acc.boundaries := mem_of_getLast?_eq hl
    have hple : i ≤ b0 := by omega
    obtain ⟨j, hj⟩ := @findIdx?_isSome_of_mem acc.boundaries
      (fun x => decide (i ≤ x)) b0 hb0 (by simpa using hple)
    exact ⟨j, by simp only [toUserOpIndex, hj]⟩

theorem buildInv_step {acc : BuildAcc} (hinv : buildInv acc)
    (newops : List ZkOp) (newrks : List ResultKind)
    (hne : ¬ (newops = [])) (hlen : newrks.length = newops.length) :
    buildInv ⟨acc.boundaries ++ [(acc.ops ++ newops).length - 1],
      acc.ops ++ newops, acc.rks ++ newrks⟩ := by
  obtain ⟨hchain, hrlen, hlast⟩ := hinv
  have hpos : 1 ≤ newops.length := by
    cases newops with
    | nil => exact absurd rfl hne
    | cons _ _ => simp
  refine ⟨?_, ?_, ?_⟩
  · refine List.Chain'.append hchain (List.chain'_singleton _) ?_
    intro x hx y hy
    simp at hy
    subst hy
    rcases hl : acc.boundaries.getLast? with _ | b0
    · rw [hl] at hx; simp at hx
    · rw [hl] at hx
      simp at hx
      subst hx
      simp only [hl] at hlast
      have hla : (acc.ops ++ newops).length =
          acc.ops.length + newops.length := List.length_append _ _
      omega
  · simp [List.length_append, hrlen, hlen]
  · rw [List.getLast?_concat]
    show (acc.ops ++ newops).length - 1 + 1 = (acc.ops ++ newops).length
    have hla : (acc.ops ++ newops).length =
        acc.ops.length + newops.length := List.length_append _ _
    omega

theorem buildChecks_cons_ok (pre : List String) {c : TxnCheck}
    {segs : List String} (rest : List TxnCheck) (acc : BuildAcc)
    (hc : disassembleKey c.key = Except.ok segs) :
    buildChecks pre (c :: rest) acc = buildChecks pre rest
      ⟨acc.boundaries ++
          [(acc.ops ++ [ZkOp.check (pre ++ segs) (checkSentVersion c.ver)]).length - 1],
        acc.ops ++ [ZkOp.check (pre ++ segs) (checkSentVersion c.ver)],
        acc.rks ++ [ResultKind.rkAux]⟩ := by
  simp only [buildChecks, hc]

theorem buildChecks_inv (pre : List String) :
    ∀ (checks : List TxnCheck) (acc acc2 : BuildAcc),
      buildChecks pre checks acc = Except.ok acc2 → buildInv acc →
      buildInv acc2 := by
  intro checks
  induction checks with
  | nil =>
    intro acc acc2 h hinv
    replace h : Except.ok acc = Except.ok acc2 := h
    simp only [Except.ok.injEq] at h
    exact h ▸ hinv
  | cons c rest ih =>
    intro acc acc2 h hinv
    rcases hc : disassembleKey c.key with e | segs
    · rw [show buildChecks pre (c :: rest) acc = Except.error e by
        simp only [buildChecks, hc]] at h
      exact absurd h (by simp)
    · rw [buildChecks_cons_ok pre rest acc hc] at h
      exact ih _ _ h (buildInv_step hinv _ _ (by simp) (by simp))

theorem buildOps_cons_create (L : Listing) (pre : List String) (fuel : Nat)
    {op : TxnOpReq} {segs : List String} (rest : List TxnOpReq)
    (acc : BuildAcc) (hc : disassembleKey op.key = Except.ok segs)
    (hw : op.what = OpKind.create) :
    buildOps L pre fuel (op :: rest) acc = buildOps L pre fuel rest
      ⟨acc.boundaries ++
          [(acc.ops ++ [ZkOp.create (pre ++ segs) op.value op.lease]).length - 1],
        acc.ops ++ [ZkOp.create (pre ++ segs) op.value op.lease],
        acc.rks ++ [ResultKind.rkCreate]⟩ := by
  simp only [buildOps, hc, hw]

theorem buildOps_cons_set (L : Listing) (pre : List String) (fuel : Nat)
    {op : TxnOpReq} {segs : List String} (rest : List TxnOpReq)
    (acc : BuildAcc) (hc : disassembleKey op.key = Except.ok segs)
    (hw : op.what = OpKind.set) :
    buildOps L pre fuel (op :: rest) acc = buildOps L pre fuel rest
      ⟨acc.boundaries ++
          [(acc.ops ++ [ZkOp.setData (pre ++ segs) op.value (-1)]).length - 1],
        acc.ops ++ [ZkOp.setData (pre ++ segs) op.value (-1)],
        acc.rks ++ [ResultKind.rkSet]⟩ := by
  simp only [buildOps, hc, hw]

theorem buildOps_cons_erase_ok (L : Listing) (pre : List String) (fuel : Nat)
    {op : TxnOpReq} {segs : List String} {mops : List ZkOp}
    (rest : List TxnOpReq) (acc : BuildAcc)
    (hc : disassembleKey op.key = Except.ok segs)
    (hw : op.what = OpKind.erase)
    (hm : makeEraseQuery L pre fuel acc.ops segs = (mops, none)) :
    buildOps L pre fuel (op :: rest) acc = buildOps L pre fuel rest
      ⟨acc.boundaries ++ [mops.length - 1], mops,
        acc.rks ++ List.replicate (mops.length - acc.ops.length)
          ResultKind.rkAux⟩ := by
  simp only [buildOps, hc, hw, hm]

theorem buildOps_cons_erase_noNode (L : Listing) (pre : List String)
    (fuel : Nat) {op : TxnOpReq} {segs : List String} {mops : List ZkOp}
    (rest : List TxnOpReq) (acc : BuildAcc)
    (hc : disassembleKey op.key = Except.ok segs)
    (hw : op.what = OpKind.erase)
    (hm : makeEraseQuery L pre fuel acc.ops segs = (mops, some ZkErr.noNode)) :
    buildOps L pre fuel (op :: rest) acc = buildOps L pre fuel rest
      ⟨acc.boundaries ++
          [(mops ++ [ZkOp.delete (pre ++ segs) (-1)]).length - 1],
        mops ++ [ZkOp.delete (pre ++ segs) (-1)],
        acc.rks ++ List.replicate
          ((mops ++ [ZkOp.delete (pre ++ segs) (-1)]).length - acc.ops.length)
          ResultKind.rkAux⟩ := by
  simp only [buildOps, hc, hw, hm]
  simp

theorem buildOps_cons_erase_err (L : Listing) (pre : List String)
    (fuel : Nat) {op : TxnOpReq} {segs : List String} {mops : List ZkOp}
    {e : ZkErr} (rest : List TxnOpReq) (acc : BuildAcc)
    (hc : disassembleKey op.key = Except.ok segs)
    (hw : op.what = OpKind.erase)
    (hm : makeEraseQuery L pre fuel acc.ops segs = (mops, some e))
    (he : ¬ (e = ZkErr.noNode)) :
    buildOps L pre fuel (op :: rest) acc = Except.error (convertError e) := by
  simp only [buildOps, hc, hw, hm]
  simp [he]

theorem buildOps_inv (L : Listing) (pre : List String) (fuel : Nat) :
    ∀ (ops : List TxnOpReq) (acc acc2 : BuildAcc),
      buildOps L pre fuel ops acc = Except.ok acc2 → buildInv acc →
      buildInv acc2 := by
  intro ops
  induction ops with
  | nil =>
    intro acc acc2 h hinv
    replace h : Except.ok acc = Except.ok acc2 := h
    simp only [Except.ok.injEq] at h
    exact h ▸ hinv
  | cons op rest ih =>
    intro acc acc2 h hinv
    rcases hc : disassembleKey op.key with e | segs
    · rw [show buildOps L pre fuel (op :: rest) acc = Except.error e by
        simp only [buildOps, hc]] at h
      exact absurd h (by simp)
    · rcases hw : op.what with _ | _ | _
      · rw [buildOps_cons_create L pre fuel rest acc hc hw] at h
        exact ih _ _ h (buildInv_step hinv _ _ (by simp) (by simp))
      · rw [buildOps_cons_set L pre fuel rest acc hc hw] at h
        exact ih _ _ h (buildInv_step hinv _ _ (by simp) (by simp))
      · rcases hm : makeEraseQuery L pre fuel acc.ops segs with ⟨mops, oe⟩
        cases oe with
        | none =>
          rw [buildOps_cons_erase_ok L pre fuel rest acc hc hw hm] at h
          obtain ⟨t, ht⟩ :=
            makeEraseQuery_ok_append L pre fuel acc.ops segs mops hm
          have ht2 : mops =
              acc.ops ++ (t ++ [ZkOp.delete (pre ++ segs) (-1)]) := by
            rw [ht, List.append_assoc]
          rw [ht2] at h
          exact ih _ _ h (buildInv_step hinv _ _ (by simp)
            (by simp only [List.length_replicate, List.length_append]; omega))
        | some e =>
          by_cases he : e = ZkErr.noNode
          · subst he
            rw [buildOps_cons_erase_noNode L pre fuel rest acc hc hw hm] at h
            obtain ⟨t, ht⟩ := makeEraseQuery_appends L pre fuel acc.ops segs
            rw [hm] at ht
            replace ht : mops = acc.ops ++ t := ht
            have ht2 : mops ++ [ZkOp.delete (pre ++ segs) (-1)] =
                acc.ops ++ (t ++ [ZkOp.delete (pre ++ segs) (-1)]) := by
              rw [ht, List.append_assoc]
            rw [ht2] at h
            exact ih _ _ h (buildInv_step hinv _ _ (by simp)
              (by simp only [List.length_replicate, List.length_append]; omega))
          · rw [buildOps_cons_erase_err L pre fuel rest acc hc hw hm he] at h
            exact absurd h (by simp)

theorem commitBuild_inv (L : Listing) (pre : List String) (fuel : Nat)
    (txn : Txn) (acc : BuildAcc)
    (h : commitBuild L pre fuel txn = Except.ok acc) : buildInv acc := by
  unfold commitBuild at h
  rcases hbc : buildChecks pre txn.checks ⟨[], [], []⟩ with e | acc1
  · rw [hbc] at h; exact absurd h (by simp)
  · rw [hbc] at h
    replace h : buildOps L pre fuel txn.ops acc1 = Except.ok acc := h
    have h1 : buildInv acc1 :=
      buildChecks_inv pre txn.checks ⟨[], [], []⟩ acc1 hbc
        ⟨List.chain'_nil, rfl, rfl⟩
    exact buildOps_inv L pre fuel txn.ops acc1 acc h h1

theorem reconcileLoop_no_panic (b : List Nat) (rks : List ResultKind)
    (N : Nat) (hb : ∀ i, i < N → ∃ k, toUserOpIndex b i = Int.ofNat k) :
    ∀ (data : List MultiResult) (i : Nat) (res : List TxnOpResult),
      i + data.length ≤ N →
      ¬ (reconcileLoop b rks i data res = Sum.inl CommitOutcome.panicked) := by
  intro data
  induction data with
  | nil => intro i res _ h; simp [reconcileLoop] at h
  | cons d rest ih =>
    intro i res hlen h
    rcases hd : d.error with _ | e
    · simp only [reconcileLoop, hd] at h
      rcases hr : rks.getD i ResultKind.rkAux with _ | _ | _
      · simp only [hr] at h
        exact ih (i + 1) _ (by simp only [List.length_cons] at hlen; omega) h
      · simp only [hr] at h
        exact ih (i + 1) _ (by simp only [List.length_cons] at hlen; omega) h
      · simp only [hr] at h
        exact ih (i + 1) _ (by simp only [List.length_cons] at hlen; omega) h
    · have hi : i < N := by simp only [List.length_cons] at hlen; omega
      obtain ⟨k, hk⟩ := hb i hi
      simp only [reconcileLoop, hd, hk] at h
      split at h <;> simp at h

/-- C9: In every batch Commit's build phase produces, the recorded boundary
indices are strictly increasing, the last boundary is the index of the last
underlying item (and there are no boundaries only when there are no items),
there is one result kind per item, and every item index below the batch
length has a non-negative owning user-operation index under
`toUserOpIndex` — hence the `panic("txn failed on non-existing op")` in the
reconciliation loop is unreachable: no Commit attempt, and no full Commit
run, ever reaches the panicked outcome. -/
theorem claim_C9_boundaries :
    (∀ (L : Listing) (pre : List String) (fuel : Nat) (txn : Txn)
        (acc : BuildAcc),
      commitBuild L pre fuel txn = Except.ok acc →
      List.Chain' (fun a b => a < b) acc.boundaries ∧
      acc.rks.length = acc.ops.length ∧
      (match acc.boundaries.getLast? with
       | none => acc.ops = []
       | some b => b + 1 = acc.ops.length) ∧
      (∀ i, i < acc.ops.length →
        ∃ k, toUserOpIndex acc.boundaries i = Int.ofNat k ∧
          0 ≤ toUserOpIndex acc.boundaries i)) ∧
    (∀ (L : Listing) (s : ZkState) (pre : List String) (fuel : Nat)
        (txn : Txn),
      ¬ (zkCommitAttempt L s pre fuel txn = CommitOutcome.panicked)) ∧
    (∀ (pre : List String) (fuel : Nat) (txn : Txn)
        (envs : List (Listing × ZkState)),
      ¬ (zkCommit pre fuel txn envs = CommitOutcome.panicked)) := by
  have hA : ∀ (L : Listing) (s : ZkState) (pre : List String) (fuel : Nat)
      (txn : Txn),
      ¬ (zkCommitAttempt L s pre fuel txn = CommitOutcome.panicked) := by
    intro L s pre fuel txn hc
    rcases hb : commitBuild L pre fuel txn with e | acc
    · simp only [zkCommitAttempt, hb] at hc
      cases hc
    · have hinv := commitBuild_inv L pre fuel txn acc hb
      have hnp := reconcileLoop_no_panic acc.boundaries acc.rks
        acc.ops.length (toUserOpIndex_ofNat hinv) (applyMulti s acc.ops).1 0 []
        (by rw [Nat.zero_add, applyMulti_length])
      simp only [zkCommitAttempt, hb] at hc
      rcases hrec : reconcileLoop acc.boundaries acc.rks 0
          (applyMulti s acc.ops).1 [] with o | res
      · rw [hrec] at hc
        replace hc : o = CommitOutcome.panicked := hc
        subst hc
        exact hnp hrec
      · rw [hrec] at hc
        replace hc : (match (applyMulti s acc.ops).2.1 with
          | some e => CommitOutcome.err (convertError e)
          | none => CommitOutcome.ok res) = CommitOutcome.panicked := hc
        rcases ho : (applyMulti s acc.ops).2.1 with _ | e <;> rw [ho] at hc <;>
          cases hc
  refine ⟨?_, hA, ?_⟩
  · intro L pre fuel txn acc hb
    have hinv := commitBuild_inv L pre fuel txn acc hb
    refine ⟨hinv.1, hinv.2.1, hinv.2.2, ?_⟩
    intro i hi
    obtain ⟨k, hk⟩ := toUserOpIndex_ofNat hinv i hi
    exact ⟨k, hk, by rw [hk]; exact Int.ofNat_nonneg k⟩
  · intro pre fuel txn envs
    induction envs with
    | nil => simp [zkCommit]
    | cons env rest ih =>
      obtain ⟨L, s⟩ := env
      intro hc
      simp only [zkCommit] at hc
      rcases ha : zkCommitAttempt L s pre fuel txn with res | e | _ | _ | _ <;>
        rw [ha] at hc
      · exact absurd (show CommitOutcome.ok res = CommitOutcome.panicked
          from hc) (by simp)
      · exact absurd (show CommitOutcome.err e = CommitOutcome.panicked
          from hc) (by simp)
      · exact ih hc
      · exact hA L s pre fuel txn ha
      · exact absurd (show CommitOutcome.diverged = CommitOutcome.panicked
          from hc) (by simp)

theorem claim_C9_boundaries_witness :
    (∀ i, i < 2 → ∃ k, toUserOpIndex [0, 1] i = Int.ofNat k) ∧
    ¬ (zkCommitAttempt (fun _ => Except.ok []) [] [] 1
        ⟨[⟨"k", 5⟩], [⟨OpKind.create, "x", [], false⟩]⟩ =
      CommitOutcome.panicked) ∧
    ¬ (zkCommit [] 1 ⟨[⟨"k", 5⟩], [⟨OpKind.create, "x", [], false⟩]⟩
        [((fun _ => Except.ok []), [])] = CommitOutcome.panicked) :=
  ⟨fun i hi =>
    ((claim_C9_boundaries.1 (fun _ => Except.ok []) [] 1
      ⟨[⟨"k", 5⟩], [⟨OpKind.create, "x", [], false⟩]⟩
      ⟨[0, 1], [ZkOp.check ["k"] (checkSentVersion 5),
        ZkOp.create ["x"] [] false],
        [ResultKind.rkAux, ResultKind.rkCreate]⟩
      (by decide)).2.2.2 i hi).imp (fun k hk => hk.1),
   claim_C9_boundaries.2.1 (fun _ => Except.ok []) [] [] 1
     ⟨[⟨"k", 5⟩], [⟨OpKind.create, "x", [], false⟩]⟩,
   claim_C9_boundaries.2.2 [] 1 ⟨[⟨"k", 5⟩], [⟨OpKind.create, "x", [], false⟩]⟩
     [((fun _ => Except.ok []), [])]⟩

/-! ### Claim C3 — Commit result list on full success -/

theorem getD_of_drop {l : List ResultKind} {i : Nat} {r : ResultKind}
    {t : List ResultKind} (h : l.drop i = r :: t) :
    l.getD i ResultKind.rkAux = r := by
  have hh := List.head?_drop l i
  rw [h] at hh
  rw [List.getD_eq_getElem?_getD, ← hh]
  rfl

theorem drop_succ_of_drop {l : List ResultKind} {i : Nat} {r : ResultKind}
    {t : List ResultKind} (h : l.drop i = r :: t) : l.drop (i + 1) = t := by
  rw [← List.tail_drop, h]
  rfl

theorem getElem?_none_of_drop_nil {l : List ResultKind} {i : Nat}
    (h : l.drop i = []) : l.getD i ResultKind.rkAux = ResultKind.rkAux := by
  have hh := List.head?_drop l i
  rw [h] at hh
  rw [List.getD_eq_getElem?_getD, ← hh]
  rfl

theorem collectResults_nil_right : ∀ rks, collectResults rks [] = [] := by
  intro rks
  cases rks with
  | nil => rfl
  | cons r rtail => cases r <;> rfl

theorem collectResults_nil_left : ∀ d, collectResults [] d = [] := by
  intro d
  cases d <;> rfl

theorem collectResults_append :
    ∀ (r1 : List ResultKind) (d1 : List MultiResult) (r2 : List ResultKind)
      (d2 : List MultiResult), r1.length = d1.length →
      collectResults (r1 ++ r2) (d1 ++ d2) =
        collectResults r1 d1 ++ collectResults r2 d2 := by
  intro r1
  induction r1 with
  | nil =>
    intro d1 r2 d2 h
    have hd1 : d1 = [] := List.length_eq_zero.mp (by simp at h; omega)
    subst hd1
    simp [collectResults_nil_left]
  | cons r rtail ih =>
    intro d1 r2 d2 h
    cases d1 with
    | nil => simp at h
    | cons d dtail =>
      simp only [List.length_cons] at h
      cases r <;>
        simp only [List.cons_append, collectResults, List.append_eq] <;>
        rw [ih dtail r2 d2 (by omega)]

theorem collectResults_replicate_aux :
    ∀ (n : Nat) (d : List MultiResult),
      collectResults (List.replicate n ResultKind.rkAux) d = [] := by
  intro n
  induction n with
  | zero => intro d; exact collectResults_nil_left d
  | succ n ih =>
    intro d
    cases d with
    | nil => exact collectResults_nil_right _
    | cons dd dt =>
      rw [List.replicate_succ]
      exact ih dt

theorem applyMulti_overall (s : ZkState) (ops : List ZkOp) :
    (applyMulti s ops).2.1 = (applyOps s ops).2.1 := by
  show (match (applyOps s ops).2.1 with
    | none => applyOps s ops
    | some e => ((applyOps s ops).1, some e, s)).2.1 = (applyOps s ops).2.1
  cases h : (applyOps s ops).2.1 with
  | none => exact h
  | some e => rfl

theorem reconcileLoop_all_ok (b : List Nat) (rks : List ResultKind) :
    ∀ (data : List MultiResult) (i : Nat) (res : List TxnOpResult),
      (∀ d ∈ data, d.error = none) →
      reconcileLoop b rks i data res =
        Sum.inr (res ++ collectResults (rks.drop i) data) := by
  intro data
  induction data with
  | nil =>
    intro i res _
    rw [collectResults_nil_right]
    simp [reconcileLoop]
  | cons d rest ih =>
    intro i res hall
    have hd : d.error = none := hall d (by simp)
    have htail : ∀ d2 ∈ rest, d2.error = none :=
      fun d2 h2 => hall d2 (by simp [h2])
    simp only [reconcileLoop, hd]
    rcases hdrop : rks.drop i with _ | ⟨r, rtail⟩
    · have hg := getElem?_none_of_drop_nil hdrop
      have hdrop2 : rks.drop (i + 1) = [] :=
        List.drop_eq_nil_iff.mpr
          (by have := List.drop_eq_nil_iff.mp hdrop; omega)
      rw [hg]
      show reconcileLoop b rks (i + 1) rest res =
        Sum.inr (res ++ collectResults [] (d :: rest))
      rw [ih (i + 1) res htail, hdrop2]
      rw [collectResults_nil_left, collectResults_nil_left]
    · have hg := getD_of_drop hdrop
      have hdrop2 := drop_succ_of_drop hdrop
      rw [hg]
      cases r with
      | rkCreate =>
        show reconcileLoop b rks (i + 1) rest (res ++ [⟨OpKind.create, 1⟩]) =
          Sum.inr (res ++
            collectResults (ResultKind.rkCreate :: rtail) (d :: rest))
        rw [ih (i + 1) (res ++ [(⟨OpKind.create, 1⟩ : TxnOpResult)]) htail,
          hdrop2]
        simp [collectResults]
      | rkSet =>
        show reconcileLoop b rks (i + 1) rest
            (res ++ [⟨OpKind.set, d.statVersion + 1⟩]) =
          Sum.inr (res ++
            collectResults (ResultKind.rkSet :: rtail) (d :: rest))
        rw [ih (i + 1)
          (res ++ [(⟨OpKind.set, d.statVersion + 1⟩ : TxnOpResult)]) htail,
          hdrop2]
        simp [collectResults]
      | rkAux =>
        show reconcileLoop b rks (i + 1) rest res =
          Sum.inr (res ++
            collectResults (ResultKind.rkAux :: rtail) (d :: rest))
        rw [ih (i + 1) res htail, hdrop2]
        simp [collectResults]

theorem buildChecks_rks (pre : List String) :
    ∀ (checks : List TxnCheck) (acc acc2 : BuildAcc),
      buildChecks pre checks acc = Except.ok acc2 →
      acc2.rks = acc.rks ++ List.replicate checks.length ResultKind.rkAux ∧
      acc2.ops.length = acc.ops.length + checks.length := by
  intro checks
  induction checks with
  | nil =>
    intro acc acc2 h
    replace h : Except.ok acc = Except.ok acc2 := h
    simp only [Except.ok.injEq] at h
    subst h
    simp
  | cons c rest ih =>
    intro acc acc2 h
    rcases hc : disassembleKey c.key with e | segs
    · rw [show buildChecks pre (c :: rest) acc = Except.error e by
        simp only [buildChecks, hc]] at h
      exact absurd h (by simp)
    · rw [buildChecks_cons_ok pre rest acc hc] at h
      obtain ⟨h1, h2⟩ := ih _ _ h
      constructor
      · rw [h1]
        simp [List.length_cons, List.replicate_succ, List.append_assoc]
      · rw [h2]
        simp only [List.length_append, List.length_cons, List.length_nil]
        omega

theorem buildOps_chunks (L : Listing) (pre : List String) (fuel : Nat) :
    ∀ (ops : List TxnOpReq) (acc acc2 : BuildAcc),
      buildOps L pre fuel ops acc = Except.ok acc2 →
      ∃ chunks : List (List ResultKind),
        chunks.length = ops.length ∧
        acc2.rks = acc.rks ++ chunks.flatten ∧
        List.Forall₂ RkChunk ops chunks := by
  intro ops
  induction ops with
  | nil =>
    intro acc acc2 h
    replace h : Except.ok acc = Except.ok acc2 := h
    simp only [Except.ok.injEq] at h
    subst h
    exact ⟨[], rfl, by simp, List.Forall₂.nil⟩
  | cons op rest ih =>
    intro acc acc2 h
    rcases hc : disassembleKey op.key with e | segs
    · rw [show buildOps L pre fuel (op :: rest) acc = Except.error e by
        simp only [buildOps, hc]] at h
      exact absurd h (by simp)
    · rcases hw : op.what with _ | _ | _
      · rw [buildOps_cons_create L pre fuel rest acc hc hw] at h
        obtain ⟨chunks, hlen, hrks, hf⟩ := ih _ _ h
        refine ⟨[ResultKind.rkCreate] :: chunks, by simp [hlen], ?_, ?_⟩
        · rw [hrks]; simp
        · exact List.Forall₂.cons (by simp [RkChunk, hw]) hf
      · rw [buildOps_cons_set L pre fuel rest acc hc hw] at h
        obtain ⟨chunks, hlen, hrks, hf⟩ := ih _ _ h
        refine ⟨[ResultKind.rkSet] :: chunks, by simp [hlen], ?_, ?_⟩
        · rw [hrks]; simp
        · exact List.Forall₂.cons (by simp [RkChunk, hw]) hf
      · rcases hm : makeEraseQuery L pre fuel acc.ops segs with ⟨mops, oe⟩
        cases oe with
        | none =>
          rw [buildOps_cons_erase_ok L pre fuel rest acc hc hw hm] at h
          obtain ⟨t, ht⟩ :=
            makeEraseQuery_ok_append L pre fuel acc.ops segs mops hm
          obtain ⟨chunks, hlen, hrks, hf⟩ := ih _ _ h
          refine ⟨List.replicate (mops.length - acc.ops.length)
              ResultKind.rkAux :: chunks, by simp [hlen], ?_, ?_⟩
          · rw [hrks]; simp
          · refine List.Forall₂.cons ?_ hf
            have hcount : mops.length - acc.ops.length = t.length + 1 := by
              rw [ht]
              simp only [List.length_append, List.length_cons,
                List.length_nil]
              omega
            simp only [RkChunk, hw]
            exact ⟨by rw [hcount]; simp, by rw [List.length_replicate]⟩
        | some e =>
          by_cases he : e = ZkErr.noNode
          · subst he
            rw [buildOps_cons_erase_noNode L pre fuel rest acc hc hw hm] at h
            obtain ⟨t, ht0⟩ := makeEraseQuery_appends L pre fuel acc.ops segs
            rw [hm] at ht0
            replace ht0 : mops = acc.ops ++ t := ht0
            obtain ⟨chunks, hlen, hrks, hf⟩ := ih _ _ h
            refine ⟨List.replicate
                ((mops ++ [ZkOp.delete (pre ++ segs) (-1)]).length -
                  acc.ops.length) ResultKind.rkAux :: chunks,
              by simp [hlen], ?_, ?_⟩
            · rw [hrks]; simp
            · refine List.Forall₂.cons ?_ hf
              have hcount : (mops ++ [ZkOp.delete (pre ++ segs) (-1)]).length -
                  acc.ops.length = t.length + 1 := by
                rw [ht0]
                simp only [List.length_append, List.length_cons,
                  List.length_nil]
                omega
              simp only [RkChunk, hw]
              exact ⟨by rw [hcount]; simp, by rw [List.length_replicate]⟩
          · rw [buildOps_cons_erase_err L pre fuel rest acc hc hw hm he] at h
            exact absurd h (by simp)

theorem collect_chunks {ops : List TxnOpReq} {chunks : List (List ResultKind)}
    (hf : List.Forall₂ RkChunk ops chunks) :
    ∀ (data : List MultiResult), data.length = chunks.flatten.length →
      ∃ dchunks : List (List MultiResult),
        data = dchunks.flatten ∧
        dchunks.length = ops.length ∧
        collectResults chunks.flatten data =
          (List.zipWith opChunkResults ops dchunks).flatten := by
  induction hf with
  | nil =>
    intro data hlen
    have hdata : data = [] := List.length_eq_zero.mp (by simpa using hlen)
    subst hdata
    exact ⟨[], by simp, by simp, by simp [collectResults_nil_left]⟩
  | @cons op ch ops2 chunks2 hrk htail ih =>
    intro data hlen
    rw [List.flatten_cons] at hlen
    have hlen' : data.length = ch.length + chunks2.flatten.length := by
      simpa [List.length_append] using hlen
    have hdsplit := (List.take_append_drop ch.length data).symm
    have hlen1 : (data.take ch.length).length = ch.length := by
      rw [List.length_take]; omega
    have hlen2 : (data.drop ch.length).length = chunks2.flatten.length := by
      rw [List.length_drop]; omega
    obtain ⟨dchunks2, hd2, hl2, hc2⟩ := ih (data.drop ch.length) hlen2
    refine ⟨data.take ch.length :: dchunks2, ?_, by simp [hl2], ?_⟩
    · rw [List.flatten_cons, ← hd2]
      exact hdsplit
    · rw [List.flatten_cons]
      conv_lhs => rw [hdsplit]
      rw [collectResults_append ch (data.take ch.length) chunks2.flatten
        (data.drop ch.length) hlen1.symm]
      rw [hc2, List.zipWith_cons_cons, List.flatten_cons]
      congr 1
      rcases hwhat : op.what with _ | _ | _
      · simp only [RkChunk, hwhat] at hrk
        subst hrk
        obtain ⟨d, hd⟩ := List.length_eq_one.mp hlen1
        rw [hd]
        simp [collectResults, opChunkResults, hwhat]
      · simp only [RkChunk, hwhat] at hrk
        subst hrk
        obtain ⟨d, hd⟩ := List.length_eq_one.mp hlen1
        rw [hd]
        simp [collectResults, opChunkResults, hwhat]
      · simp only [RkChunk, hwhat] at hrk
        rw [hrk.2, collectResults_replicate_aux]
        simp [opChunkResults, hwhat]

/-- C3: For every transaction whose submitted batch has every underlying
item succeed, Commit returns a result list containing, in the order of the
user-level Ops, exactly one entry `(Create, 1)` per Create op, one entry
`(Set, resulting native version + 1)` per Set op (the stat version of that
op's single underlying item, plus one), and no entry for any Check or
Erase: the per-item results split into one chunk per check followed by one
chunk per op, and the result list is the concatenation of each op's
`opChunkResults`. -/
theorem claim_C3_commit_success (L : Listing) (s : ZkState)
    (pre : List String) (fuel : Nat) (txn : Txn) (acc : BuildAcc)
    (envs : List (Listing × ZkState))
    (hacc : commitBuild L pre fuel txn = Except.ok acc)
    (hok : (applyMulti s acc.ops).2.1 = none) :
    ∃ (dchecks : List MultiResult) (dchunks : List (List MultiResult)),
      (applyMulti s acc.ops).1 = dchecks ++ dchunks.flatten ∧
      dchecks.length = txn.checks.length ∧
      dchunks.length = txn.ops.length ∧
      zkCommitAttempt L s pre fuel txn = CommitOutcome.ok
        (List.zipWith opChunkResults txn.ops dchunks).flatten ∧
      zkCommit pre fuel txn ((L, s) :: envs) = CommitOutcome.ok
        (List.zipWith opChunkResults txn.ops dchunks).flatten := by
  have hb := hacc
  unfold commitBuild at hb
  rcases hbc : buildChecks pre txn.checks ⟨[], [], []⟩ with e | acc1
  · rw [hbc] at hb; exact absurd hb (by simp)
  rw [hbc] at hb
  replace hb : buildOps L pre fuel txn.ops acc1 = Except.ok acc := hb
  obtain ⟨hrks1, hlen1⟩ := buildChecks_rks pre txn.checks ⟨[], [], []⟩ acc1 hbc
  obtain ⟨chunks, hclen, hrks, hforall⟩ :=
    buildOps_chunks L pre fuel txn.ops acc1 acc hb
  have hinv := commitBuild_inv L pre fuel txn acc hacc
  have hrksops : acc.rks.length = acc.ops.length := hinv.2.1
  have hdlen : (applyMulti s acc.ops).1.length = acc.ops.length :=
    applyMulti_length s acc.ops
  have hallok : ∀ d ∈ (applyMulti s acc.ops).1, d.error = none := by
    rw [applyMulti_fst]
    exact applyOps_ok_all acc.ops s (by rw [← applyMulti_overall]; exact hok)
  have hrks2 : acc.rks =
      List.replicate txn.checks.length ResultKind.rkAux ++ chunks.flatten := by
    rw [hrks, hrks1]
    simp
  have hlenrks : acc.rks.length =
      txn.checks.length + chunks.flatten.length := by
    rw [hrks2]
    simp [List.length_append, List.length_replicate]
  have hdsplit :=
    (List.take_append_drop txn.checks.length (applyMulti s acc.ops).1).symm
  have hdl1 : ((applyMulti s acc.ops).1.take txn.checks.length).length =
      txn.checks.length := by
    rw [List.length_take]; omega
  have hdl2 : ((applyMulti s acc.ops).1.drop txn.checks.length).length =
      chunks.flatten.length := by
    rw [List.length_drop]; omega
  obtain ⟨dchunks, hdc, hdclen, hcol⟩ :=
    collect_chunks hforall ((applyMulti s acc.ops).1.drop txn.checks.length)
      hdl2
  have hrec : reconcileLoop acc.boundaries acc.rks 0 (applyMulti s acc.ops).1
      [] = Sum.inr (List.zipWith opChunkResults txn.ops dchunks).flatten := by
    rw [reconcileLoop_all_ok acc.boundaries acc.rks (applyMulti s acc.ops).1
      0 [] hallok]
    rw [List.drop_zero, hrks2]
    conv_lhs => rw [hdsplit]
    rw [collectResults_append _ _ _ _
      (by rw [List.length_replicate, hdl1])]
    rw [collectResults_replicate_aux, hcol]
    simp
  have hattempt : zkCommitAttempt L s pre fuel txn = CommitOutcome.ok
      (List.zipWith opChunkResults txn.ops dchunks).flatten := by
    simp only [zkCommitAttempt, hacc, hrec, hok]
  refine ⟨(applyMulti s acc.ops).1.take txn.checks.length, dchunks, ?_, hdl1,
    hdclen, hattempt, ?_⟩
  · rw [← hdc]
    exact hdsplit
  · simp only [zkCommit, hattempt]

theorem claim_C3_commit_success_witness :
    ∃ (dchecks : List MultiResult) (dchunks : List (List MultiResult)),
      (applyMulti [([], ⟨[], 0, false⟩), (["k1"], ⟨[1], 0, false⟩)]
        [ZkOp.check ["k1"] 0, ZkOp.setData ["k1"] [9] (-1),
          ZkOp.create ["k2"] [8] false]).1 = dchecks ++ dchunks.flatten ∧
      dchecks.length = 1 ∧
      dchunks.length = 2 ∧
      zkCommitAttempt
        (listingOf [([], ⟨[], 0, false⟩), (["k1"], ⟨[1], 0, false⟩)])
        [([], ⟨[], 0, false⟩), (["k1"], ⟨[1], 0, false⟩)] [] 1
        ⟨[⟨"k1", 1⟩], [⟨OpKind.set, "k1", [9], false⟩,
          ⟨OpKind.create, "k2", [8], false⟩]⟩ = CommitOutcome.ok
        (List.zipWith opChunkResults
          [⟨OpKind.set, "k1", [9], false⟩, ⟨OpKind.create, "k2", [8], false⟩]
          dchunks).flatten ∧
      zkCommit [] 1 ⟨[⟨"k1", 1⟩], [⟨OpKind.set, "k1", [9], false⟩,
          ⟨OpKind.create, "k2", [8], false⟩]⟩
        [(listingOf [([], ⟨[], 0, false⟩), (["k1"], ⟨[1], 0, false⟩)],
          [([], ⟨[], 0, false⟩), (["k1"], ⟨[1], 0, false⟩)])] =
        CommitOutcome.ok (List.zipWith opChunkResults
          [⟨OpKind.set, "k1", [9], false⟩, ⟨OpKind.create, "k2", [8], false⟩]
          dchunks).flatten :=
  claim_C3_commit_success
    (listingOf [([], ⟨[], 0, false⟩), (["k1"], ⟨[1], 0, false⟩)])
    [([], ⟨[], 0, false⟩), (["k1"], ⟨[1], 0, false⟩)] [] 1
    ⟨[⟨"k1", 1⟩], [⟨OpKind.set, "k1", [9], false⟩,
      ⟨OpKind.create, "k2", [8], false⟩]⟩
    ⟨[0, 1, 2], [ZkOp.check ["k1"] 0, ZkOp.setData ["k1"] [9] (-1),
      ZkOp.create ["k2"] [8] false], [ResultKind.rkAux, ResultKind.rkSet,
      ResultKind.rkCreate]⟩ [] (by decide) (by decide)
